import Mathlib

/- Verification of the tool-call protocol layer of the Llama_3.2_Experiment
   repository: a shallow embedding of the Call Extractor
   (intelligent_mcp.py: IntelligentMCPHandler.parse_tool_call), the Call
   Dispatcher (execute_tool_call / mcp_integration.call_tool), the Dataset
   Accessor (homicide_mcp.py: HomicideDataMCP), the Result Formatter
   (mcp_integration.format_tool_result), the Orchestrator
   (handle_question_with_tools) and the Model Gateway wrapper
   (llama_client.generate_with_tools), together with theorems settling the
   specification claims about them. -/

namespace ToolProto

/-- Opening brace character, written through its code point. -/
def lbrace : Char := Char.ofNat 123

/-- Closing brace character, written through its code point. -/
def rbrace : Char := Char.ofNat 125

/-- Double-quote character. -/
def dquote : Char := Char.ofNat 34

/-- Backslash character. -/
def bslash : Char := Char.ofNat 92

/-- JSON inter-token whitespace accepted by CPython json.loads. -/
def isWsChar (c : Char) : Bool :=
  c = ' ' || c = Char.ofNat 9 || c = Char.ofNat 10 || c = Char.ofNat 13

/-- Whitespace removed by Python str.strip (ASCII fragment). -/
def isPyWs (c : Char) : Bool :=
  c = ' ' || c = Char.ofNat 9 || c = Char.ofNat 10 || c = Char.ofNat 13 ||
  c = Char.ofNat 11 || c = Char.ofNat 12

/-- JSON values as produced by json.loads. Numbers keep their source lexeme:
no claim in this development depends on numeric equality of JSON numbers. -/
inductive Json where
  | jnull : Json
  | jbool : Bool → Json
  | jnum : String → Json
  | jstr : String → Json
  | jarr : List Json → Json
  | jobj : List (String × Json) → Json

/-- A Python dict with string keys, in insertion order with unique keys
(the shape json.loads and the handler code build). -/
abbrev PyDict := List (String × Json)

/-- Membership test for a key, modelling Python `k in d`. -/
def hasKey (d : PyDict) (k : String) : Bool := d.any (fun p => p.1 = k)

/-- Lookup modelling Python `d[k]` / `d.get(k)`. -/
def pyGet (d : PyDict) (k : String) : Option Json :=
  (d.find? (fun p => p.1 = k)).map (fun p => p.2)

/-- Insertion modelling Python `d[k] = v`: replace in place if the key is
present, else append. json.loads builds objects this way, so a duplicated
key keeps its first position with the last value. -/
def pyInsert (d : PyDict) (k : String) (v : Json) : PyDict :=
  if hasKey d k then d.map (fun p => if p.1 = k then (k, v) else p)
  else d ++ [(k, v)]

/-- Value of a hexadecimal digit, for JSON \uXXXX escapes. -/
def hexVal (c : Char) : Option Nat :=
  if Char.ofNat 48 ≤ c ∧ c ≤ Char.ofNat 57 then some (c.toNat - 48)
  else if Char.ofNat 97 ≤ c ∧ c ≤ Char.ofNat 102 then some (c.toNat - 87)
  else if Char.ofNat 65 ≤ c ∧ c ≤ Char.ofNat 70 then some (c.toNat - 55)
  else none

/-- Decoded character of a single-character JSON string escape. -/
def escChar (c : Char) : Option Char :=
  if c = dquote then some dquote
  else if c = bslash then some bslash
  else if c = '/' then some '/'
  else if c = 'b' then some (Char.ofNat 8)
  else if c = 'f' then some (Char.ofNat 12)
  else if c = 'n' then some (Char.ofNat 10)
  else if c = 'r' then some (Char.ofNat 13)
  else if c = 't' then some (Char.ofNat 9)
  else none

/-- Body of a JSON string literal after its opening quote: returns the decoded
characters and the input remaining after the closing quote. Mirrors the strict
CPython json string scanner (raw control characters are rejected). -/
def parseStringBody : Nat → List Char → Option (List Char × List Char)
  | 0, _ => none
  | _ + 1, [] => none
  | f + 1, c :: cs =>
    if c = dquote then some ([], cs)
    else if c = bslash then
      match cs with
      | [] => none
      | e :: cs2 =>
        if e = 'u' then
          match cs2 with
          | h1 :: h2 :: h3 :: h4 :: cs3 =>
            match hexVal h1, hexVal h2, hexVal h3, hexVal h4 with
            | some a, some b, some c3, some d4 =>
              (parseStringBody f cs3).map
                (fun r => (Char.ofNat (a * 4096 + b * 256 + c3 * 16 + d4) :: r.1, r.2))
            | _, _, _, _ => none
          | _ => none
        else
          match escChar e with
          | some ec => (parseStringBody f cs2).map (fun r => (ec :: r.1, r.2))
          | none => none
    else if c.toNat < 32 then none
    else (parseStringBody f cs).map (fun r => (c :: r.1, r.2))

/-- Optional fraction part of a JSON number. -/
def parseFrac : List Char → Option (List Char × List Char)
  | [] => some ([], [])
  | c :: rest =>
    if c = '.' then
      let ds := rest.takeWhile Char.isDigit
      if ds.isEmpty then none else some (c :: ds, rest.dropWhile Char.isDigit)
    else some ([], c :: rest)

/-- Optional exponent part of a JSON number. -/
def parseExp : List Char → Option (List Char × List Char)
  | [] => some ([], [])
  | c :: rest =>
    if c = 'e' ∨ c = 'E' then
      let rest2 :=
        match rest with
        | s :: r2 => if s = '+' ∨ s = '-' then r2 else rest
        | [] => rest
      let sg : List Char :=
        match rest with
        | s :: _ => if s = '+' ∨ s = '-' then [s] else []
        | [] => []
      let ds := rest2.takeWhile Char.isDigit
      if ds.isEmpty then none else some (c :: sg ++ ds, rest2.dropWhile Char.isDigit)
    else some ([], c :: rest)

/-- JSON number: sign, integer part without leading zeros, optional fraction
and exponent. Returns the lexeme and the remaining input. -/
def parseNumber (cs : List Char) : Option (List Char × List Char) :=
  let sg : List Char :=
    match cs with
    | c :: _ => if c = '-' then [c] else []
    | [] => []
  let cs1 :=
    match cs with
    | c :: rest => if c = '-' then rest else cs
    | [] => cs
  let ip := cs1.takeWhile Char.isDigit
  let cs2 := cs1.dropWhile Char.isDigit
  if ip.isEmpty then none
  else if 2 ≤ ip.length ∧ ip.head? = some (Char.ofNat 48) then none
  else
    match parseFrac cs2 with
    | none => none
    | some (fp, cs3) =>
      match parseExp cs3 with
      | none => none
      | some (ep, cs4) => some (sg ++ ip ++ fp ++ ep, cs4)

/-- Does the first list start with the second one? -/
def startsWithList : List Char → List Char → Bool
  | _, [] => true
  | [], _ :: _ => false
  | h :: hs, p :: ps => if h = p then startsWithList hs ps else false

/-- Characters of the literal `true`. -/
def trueL : List Char := ['t', 'r', 'u', 'e']

/-- Characters of the literal `false`. -/
def falseL : List Char := ['f', 'a', 'l', 's', 'e']

/-- Characters of the literal `null`. -/
def nullL : List Char := ['n', 'u', 'l', 'l']

/-- Parser mode: a JSON value, the members of an object after its opening
brace (accumulating a Python dict), or the elements of an array. -/
inductive PMode where
  | value : PMode
  | members : PyDict → PMode
  | elements : List Json → PMode

/-- Parser result for each mode. -/
inductive PRes where
  | val : Json → PRes
  | mem : PyDict → PRes
  | elems : List Json → PRes

/-- Recursive-descent JSON parser modelling CPython json.loads, structurally
recursive on a fuel bound so that evaluation unfolds definitionally.
The nonstandard NaN/Infinity literals are not modelled. -/
def parseP : Nat → PMode → List Char → Option (PRes × List Char)
  | 0, _, _ => none
  | f + 1, PMode.value, cs =>
    match cs with
    | [] => none
    | c :: cs1 =>
      if c = dquote then
        (parseStringBody (cs1.length + 1) cs1).map
          (fun r => (PRes.val (Json.jstr (String.mk r.1)), r.2))
      else if c = lbrace then
        let cs2 := cs1.dropWhile isWsChar
        match cs2 with
        | d :: cs3 =>
          if d = rbrace then some (PRes.val (Json.jobj []), cs3)
          else
            match parseP f (PMode.members []) cs2 with
            | some (PRes.mem kvs, rest) => some (PRes.val (Json.jobj kvs), rest)
            | _ => none
        | [] => none
      else if c = '[' then
        let cs2 := cs1.dropWhile isWsChar
        match cs2 with
        | d :: cs3 =>
          if d = ']' then some (PRes.val (Json.jarr []), cs3)
          else
            match parseP f (PMode.elements []) cs2 with
            | some (PRes.elems xs, rest) => some (PRes.val (Json.jarr xs), rest)
            | _ => none
        | [] => none
      else if startsWithList cs trueL then some (PRes.val (Json.jbool true), cs.drop 4)
      else if startsWithList cs falseL then some (PRes.val (Json.jbool false), cs.drop 5)
      else if startsWithList cs nullL then some (PRes.val Json.jnull, cs.drop 4)
      else
        match parseNumber cs with
        | some (lex, rest) => some (PRes.val (Json.jnum (String.mk lex)), rest)
        | none => none
  | f + 1, PMode.members acc, cs =>
    match cs with
    | [] => none
    | c :: cs1 =>
      if c = dquote then
        match parseStringBody (cs1.length + 1) cs1 with
        | some (k, cs2) =>
          let cs3 := cs2.dropWhile isWsChar
          match cs3 with
          | d :: cs4 =>
            if d = ':' then
              match parseP f PMode.value (cs4.dropWhile isWsChar) with
              | some (PRes.val v, cs6) =>
                let acc2 := pyInsert acc (String.mk k) v
                let cs7 := cs6.dropWhile isWsChar
                match cs7 with
                | e :: cs8 =>
                  if e = ',' then parseP f (PMode.members acc2) (cs8.dropWhile isWsChar)
                  else if e = rbrace then some (PRes.mem acc2, cs8)
                  else none
                | [] => none
              | _ => none
            else none
          | [] => none
        | none => none
      else none
  | f + 1, PMode.elements acc, cs =>
    match parseP f PMode.value cs with
    | some (PRes.val v, cs2) =>
      let cs3 := cs2.dropWhile isWsChar
      match cs3 with
      | e :: cs4 =>
        if e = ',' then parseP f (PMode.elements (acc ++ [v])) (cs4.dropWhile isWsChar)
        else if e = ']' then some (PRes.elems (acc ++ [v]), cs4)
        else none
      | [] => none
    | _ => none

/-- Model of json.loads on a character list: optional surrounding whitespace
around exactly one JSON value. -/
def json_loadsL (cs : List Char) : Option Json :=
  match parseP (cs.length + 1) PMode.value (cs.dropWhile isWsChar) with
  | some (PRes.val v, rest) => if (rest.dropWhile isWsChar).isEmpty then some v else none
  | _ => none

/-- One iteration of the brace-matching loop of parse_tool_call
(intelligent_mcp.py lines 70-90) on the state (brace_count, in_quotes,
escape_next); none models the break at a closing brace that brings the
count back to zero. -/
def scanStep : Int × Bool × Bool → Char → Option (Int × Bool × Bool) :=
  fun st c =>
    if st.2.2 then some (st.1, st.2.1, false)
    else if c = bslash then some (st.1, st.2.1, true)
    else if c = dquote then some (st.1, !st.2.1, false)
    else if st.2.1 then some (st.1, st.2.1, false)
    else if c = lbrace then some (st.1 + 1, st.2.1, false)
    else if c = rbrace then
      if st.1 = 1 then none else some (st.1 - 1, st.2.1, false)
    else some (st.1, st.2.1, false)

/-- State update of the brace-matching loop across a whole span, returning
the final state, or none if the loop would break inside the span. -/
def scanNoStop (bc : Int) (inq esc : Bool) (cs : List Char) : Option (Int × Bool × Bool) :=
  cs.foldlM scanStep (bc, inq, esc)

/-- Number of characters consumed by the brace-matching loop up to and
including the closing brace that brings brace_count back to zero, or none if
the loop runs off the end of the input (in which case the Python code leaves
json_end at json_start, so the extracted span is empty). -/
def findClose : Int → Bool → Bool → List Char → Option Nat
  | _, _, _, [] => none
  | bc, inq, esc, c :: cs =>
    if esc then (findClose bc inq false cs).map (· + 1)
    else if c = bslash then (findClose bc inq true cs).map (· + 1)
    else if c = dquote then (findClose bc (!inq) false cs).map (· + 1)
    else if inq then (findClose bc inq false cs).map (· + 1)
    else if c = lbrace then (findClose (bc + 1) inq false cs).map (· + 1)
    else if c = rbrace then
      if bc = 1 then some 1 else (findClose (bc - 1) inq false cs).map (· + 1)
    else (findClose bc inq false cs).map (· + 1)

/-- Index of the first occurrence of a pattern, accumulator form. -/
def firstIdxAux : List Char → List Char → Nat → Option Nat
  | [], pat, i => if startsWithList [] pat then some i else none
  | c :: t, pat, i =>
    if startsWithList (c :: t) pat then some i else firstIdxAux t pat (i + 1)

/-- Index of the first occurrence of a pattern, modelling Python str.find. -/
def firstIdx (hay pat : List Char) : Option Nat := firstIdxAux hay pat 0

/-- Substring containment, modelling Python `pat in hay`. -/
def containsList (hay pat : List Char) : Bool := (firstIdx hay pat).isSome

/-- Index of the first occurrence of a character at or after `start`,
modelling Python str.find(ch, start). -/
def findCharFrom (cs : List Char) (c : Char) (start : Nat) : Option Nat :=
  ((cs.drop start).findIdx? (fun d => d = c)).map (· + start)

/-- Python str.strip on a character list (ASCII whitespace fragment). -/
def pyStrip (l : List Char) : List Char :=
  ((l.dropWhile isPyWs).reverse.dropWhile isPyWs).reverse

/-- The sentinel literal that marks a tool call in model output. -/
def sentinelStr : String := "TOOL_CALL:"

/-- Characters of the sentinel literal. -/
def sentinelL : List Char := sentinelStr.toList

/-- The `name` key of a tool call object. -/
def nameKey : String := "name"

/-- The `arguments` key of a tool call object. -/
def argumentsKey : String := "arguments"

/-- Missing-arguments default applied by parse_tool_call: Python
`tool_call["arguments"] = ` empty dict when the key is absent. -/
def ensureArgs (d : PyDict) : PyDict :=
  if hasKey d argumentsKey then d else d ++ [(argumentsKey, Json.jobj [])]

/-- The span handed to json.loads by the primary extraction, given the input
from the first opening brace onwards: the loop-delimited span (empty when no
closing brace returns the count to zero), stripped, with a closing brace
appended when the stripped span does not already end in one
(intelligent_mcp.py lines 93-98). -/
def adjustSpan (tail : List Char) : List Char :=
  let span :=
    match findClose 0 false false tail with
    | some n => tail.take n
    | none => []
  let tj := pyStrip span
  if tj.getLast? = some rbrace then tj else tj ++ [rbrace]

/-- Primary extraction: the text handed to json.loads, or none when the
sentinel or an opening brace after it is missing. -/
def primaryCandidate (cs : List Char) : Option (List Char) :=
  match firstIdx cs sentinelL with
  | none => none
  | some t =>
    match findCharFrom cs lbrace t with
    | none => none
    | some js => some (adjustSpan (cs.drop js))

/-- Result of json.loads on the primary extraction. -/
def primaryJson (cs : List Char) : Option Json :=
  (primaryCandidate cs).bind json_loadsL

/-- Whitespace class of the Python regex \s (ASCII fragment). -/
def isPyRegexWs (c : Char) : Bool :=
  c = ' ' || c = Char.ofNat 9 || c = Char.ofNat 10 || c = Char.ofNat 13 ||
  c = Char.ofNat 11 || c = Char.ofNat 12

/-- Characters strictly before the first closing brace, or none if there is
no closing brace: the `[^\x7d]*` part of the fallback pattern. -/
def takeToClose : List Char → Option (List Char)
  | [] => none
  | c :: cs => if c = rbrace then some [] else (takeToClose cs).map (c :: ·)

/-- Fallback pattern match attempt anchored at the current position:
the sentinel, then greedy \s*, then a brace-delimited span up to the first
closing brace (non-nesting), as captured by the regex
`TOOL_CALL:\s*(\x7b[^\x7d]*\x7d)`. -/
def fallbackAt (cs : List Char) : Option (List Char) :=
  if startsWithList cs sentinelL then
    match (cs.drop sentinelL.length).dropWhile isPyRegexWs with
    | c :: body =>
      if c = lbrace then (takeToClose body).map (fun inner => lbrace :: inner ++ [rbrace])
      else none
    | [] => none
  else none

/-- Fallback capture, modelling re.search: first position whose match
attempt succeeds. -/
def fallbackCapture : List Char → Option (List Char)
  | [] => none
  | c :: t =>
    match fallbackAt (c :: t) with
    | some r => some r
    | none => fallbackCapture t

/-- Result of json.loads on the fallback capture. -/
def fallbackJson (cs : List Char) : Option Json :=
  (fallbackCapture cs).bind json_loadsL

/-- The Call Extractor, IntelligentMCPHandler.parse_tool_call
(intelligent_mcp.py lines 43-132). Returns the parsed tool-call dict, or
none. On the primary path a parsed object lacking `name` yields none; the
fallback path (on a primary json.loads failure) parses the permissive
capture and returns it after the missing-arguments default, without any
`name` check, mirroring lines 117-128. -/
def parse_tool_call (cs : List Char) : Option PyDict :=
  if containsList cs sentinelL then
    match primaryCandidate cs with
    | none => none
    | some tj =>
      match json_loadsL tj with
      | some (Json.jobj d) => if hasKey d nameKey then some (ensureArgs d) else none
      | some _ => none
      | none =>
        match fallbackJson cs with
        | some (Json.jobj d) => some (ensureArgs d)
        | _ => none
  else none

/-- Single-quote character, for building Python error strings. -/
def sq : String := String.mk [Char.ofNat 39]

/-- One incident record, as prepared by the load boundary
(homicide_mcp.py _prepare_dataframe): year numeric-or-null, arrest/domestic
coerced to booleans, other cells kept as optional raw strings (none models a
missing/NaN cell; ID, case number, date, block and the classification
columns are always present as text in this embedding). -/
structure Record where
  rid : String
  caseNumber : String
  date : String
  year : Option Int
  block : String
  iucr : String
  primaryType : String
  description : String
  locationDescription : Option String
  arrest : Bool
  domestic : Bool
  district : Option String
  ward : Option String
  communityArea : Option String

/-- The Dataset Accessor: owns the record collection (HomicideDataMCP.df).
Queries are written in state-passing style, returning the result together
with the post-call state, so that non-mutation is an actual theorem. -/
structure HomicideDataMCP where
  df : List Record

/-- Arguments of query_homicides_advanced with the defaults of the method
signature (homicide_mcp.py lines 292-303); the dispatchers pass
top_n = 10 and limit = 100 when the caller omits them. -/
structure AdvArgs where
  start_year : Option Int := none
  end_year : Option Int := none
  ward : Option Int := none
  district : Option Int := none
  community_area : Option Int := none
  arrest_status : Option Bool := none
  domestic : Option Bool := none
  location_type : Option String := none
  group_by : Option String := none
  top_n : Nat := 1000
  limit : Nat := 1000

/-- Numeral value of a digit string. -/
def digitsToNat : List Char → Nat → Nat
  | [], acc => acc
  | c :: cs, acc => digitsToNat cs (acc * 10 + (c.toNat - 48))

/-- Parse a plain decimal natural number, entire-string. -/
def parseNatStr (cs : List Char) : Option Nat :=
  if cs.isEmpty then none
  else if cs.all Char.isDigit then some (digitsToNat cs 0) else none

/-- Best-effort integer coercion of an optional cell, modelling
pd.to_numeric(errors='coerce') on integer-like cells: non-coercible cells
become null and are then excluded by the equality filter. -/
def toNumCell : Option String → Option Int
  | none => none
  | some s =>
    match s.toList with
    | c :: rest =>
      if c = '-' then (parseNatStr rest).map (fun n => -(n : Int))
      else (parseNatStr s.toList).map (fun n => (n : Int))
    | [] => none

/-- Lower-cased characters. -/
def lowerL (cs : List Char) : List Char := cs.map Char.toLower

/-- Case-insensitive substring containment, modelling
Series.str.contains(pat, case=False, na=False). -/
def containsCI (hay pat : String) : Bool :=
  containsList (lowerL hay.toList) (lowerL pat.toList)

/-- Conjunction of the optional filters of query_homicides_advanced
(homicide_mcp.py lines 309-343); an unset filter imposes no constraint, a
null cell never satisfies a set filter. -/
def matchesFilters (a : AdvArgs) (r : Record) : Bool :=
  (match a.start_year with
   | none => true
   | some y => match r.year with | none => false | some ry => decide (y ≤ ry)) &&
  (match a.end_year with
   | none => true
   | some y => match r.year with | none => false | some ry => decide (ry ≤ y)) &&
  (match a.ward with
   | none => true
   | some w => decide (toNumCell r.ward = some w)) &&
  (match a.district with
   | none => true
   | some d => decide (toNumCell r.district = some d)) &&
  (match a.community_area with
   | none => true
   | some c => decide (toNumCell r.communityArea = some c)) &&
  (match a.arrest_status with
   | none => true
   | some b => decide (r.arrest = b)) &&
  (match a.domestic with
   | none => true
   | some b => decide (r.domestic = b)) &&
  (match a.location_type with
   | none => true
   | some t => match r.locationDescription with
     | none => false
     | some l => containsCI l t)

/-- First-seen-order deduplication, accumulator form. -/
def dedupFirstAux {α : Type} [DecidableEq α] : List α → List α → List α
  | _, [] => []
  | seen, x :: xs =>
    if x ∈ seen then dedupFirstAux seen xs else x :: dedupFirstAux (x :: seen) xs

/-- Distinct keys of a list with their multiplicities, keys in first-seen
order: the hash-table stage of pandas value_counts. -/
def keyCounts {α : Type} [DecidableEq α] (l : List α) : List (α × Nat) :=
  (dedupFirstAux [] l).map (fun k => (k, l.countP (fun y => decide (y = k))))

/-- Insert into a count-descending list, after any entry of equal count, so
that the overall sort is stable. -/
def insertByCount {α : Type} (x : α × Nat) : List (α × Nat) → List (α × Nat)
  | [] => [x]
  | y :: ys => if y.2 ≤ x.2 then x :: y :: ys else y :: insertByCount x ys

/-- Stable sort by count descending: the model both of the ordering of
pandas value_counts and of Python sorted(key=count, reverse=True), which is
stable; ties keep first-seen order. -/
def sortByCountDesc {α : Type} : List (α × Nat) → List (α × Nat)
  | [] => []
  | x :: xs => insertByCount x (sortByCountDesc xs)

/-- Model of Series.value_counts(): counts of the non-null values, sorted by
count descending, ties in first-seen order. -/
def valueCounts {α : Type} [DecidableEq α] (l : List α) : List (α × Nat) :=
  sortByCountDesc (keyCounts l)

/-- Insert into a key-ascending list of year counts. -/
def insertIntAsc (x : Int × Nat) : List (Int × Nat) → List (Int × Nat)
  | [] => [x]
  | y :: ys => if x.1 ≤ y.1 then x :: y :: ys else y :: insertIntAsc x ys

/-- Sort year counts ascending by year. -/
def sortIntAsc : List (Int × Nat) → List (Int × Nat)
  | [] => []
  | x :: xs => insertIntAsc x (sortIntAsc xs)

/-- Year breakdown: value_counts().sort_index() with str(int(year)) keys
(homicide_mcp.py lines 353-356). -/
def yearCounts (l : List Int) : List (String × Nat) :=
  (sortIntAsc (keyCounts l)).map (fun p => (toString p.1, p.2))

/-- One-decimal percent string, the Python f-string `%` formatting of
100 * num / den with round-half-even on the exact rational (modelling the
rounding of the nearest binary double). When den = 0 the Python code
formats the integer 0, giving "0.0%". -/
def formatRate (num den : Nat) : String :=
  if den = 0 then "0.0%"
  else
    let q := (1000 * num) / den
    let r := (1000 * num) % den
    let scaled := if den < 2 * r ∨ (2 * r = den ∧ q % 2 = 1) then q + 1 else q
    toString (scaled / 10) ++ "." ++ toString (scaled % 10) ++ "%"

/-- Display form of an optional cell under Python str(): a missing cell is a
float NaN and prints as "nan". -/
def cellStr : Option String → String
  | some s => s
  | none => "nan"

/-- Python str() of a bool. -/
def pyBoolStr (b : Bool) : String := if b then "True" else "False"

/-- One echoed sample record of the advanced query
(homicide_mcp.py lines 398-412). -/
structure SampleRec where
  rid : String
  caseNumber : String
  date : String
  year : Option Int
  block : String
  ward : String
  district : String
  communityArea : String
  locationDescription : String
  arrest : Bool
  domestic : Bool

/-- Complete result shape of query_homicides_advanced
(homicide_mcp.py lines 414-429); sample_records_count is the length of
sample_records and is not duplicated here. -/
structure AdvResult where
  total_matches : Nat
  filters_applied : List String
  arrest_count : Nat
  arrest_rate : String
  domestic_count : Nat
  domestic_rate : String
  year_breakdown : List (String × Nat)
  ward_breakdown : List (String × Nat)
  district_breakdown : List (String × Nat)
  community_area_breakdown : List (String × Nat)
  primary_breakdown : Option (String × List (String × Nat))
  top_locations : List (String × Nat)
  sample_records : List SampleRec

/-- Filter-description line for one optional argument. -/
def optFilterStr {α : Type} (label : String) (f : α → String) : Option α → List String
  | none => []
  | some x => [label ++ f x]

/-- The focused breakdown selected by group_by (homicide_mcp.py lines
377-389): Python lower-cases the string and matches it against fixed alias
lists; an unrecognized value leaves the primary breakdown empty, as does the
empty string (`if group_by:` is false on ""). -/
def groupByChoice (g : String) (wardB districtB caB : List (String × Nat))
    (blocks : List String) (top_n : Nat) : Option (String × List (String × Nat)) :=
  if g = "" then none
  else
    let gl := String.mk (lowerL g.toList)
    if gl = "ward" ∨ gl = "wards" then some ("ward", wardB)
    else if gl = "district" ∨ gl = "districts" then some ("district", districtB)
    else if gl = "community_area" ∨ gl = "community_areas" ∨
        gl = "community area" ∨ gl = "community areas" then some ("community_area", caB)
    else if gl = "location" ∨ gl = "locations" ∨ gl = "block" ∨ gl = "blocks" then
      some ("location", (valueCounts blocks).take top_n)
    else none

/-- The advanced filter/aggregate query, HomicideDataMCP.query_homicides_advanced
(homicide_mcp.py lines 292-432). The ward/district/community-area breakdowns
are value_counts().head(top_n) of the matching records; the focused breakdown
reuses them; top_locations is value_counts().head(5) of the raw block
strings; sample records echo the first `limit` matches in dataset order. -/
def HomicideDataMCP.query_homicides_advanced (st : HomicideDataMCP) (a : AdvArgs) :
    AdvResult × HomicideDataMCP :=
  let df := st.df.filter (matchesFilters a)
  let total := df.length
  let filters :=
    optFilterStr "start_year: " toString a.start_year ++
    optFilterStr "end_year: " toString a.end_year ++
    optFilterStr "ward: " toString a.ward ++
    optFilterStr "district: " toString a.district ++
    optFilterStr "community_area: " toString a.community_area ++
    optFilterStr "arrest_status: " pyBoolStr a.arrest_status ++
    optFilterStr "domestic: " pyBoolStr a.domestic ++
    optFilterStr "location_type: " (fun s => s) a.location_type
  let arrest_count := df.countP (fun r => r.arrest)
  let domestic_count := df.countP (fun r => r.domestic)
  let wardB := if 0 < total then (valueCounts (df.filterMap (fun r => r.ward))).take a.top_n else []
  let districtB := if 0 < total then (valueCounts (df.filterMap (fun r => r.district))).take a.top_n else []
  let caB := if 0 < total then (valueCounts (df.filterMap (fun r => r.communityArea))).take a.top_n else []
  let blocks := df.map (fun r => r.block)
  let primary :=
    if 0 < total then
      match a.group_by with
      | none => none
      | some g => groupByChoice g wardB districtB caB blocks a.top_n
    else none
  ({ total_matches := total
     filters_applied := filters
     arrest_count := arrest_count
     arrest_rate := formatRate arrest_count total
     domestic_count := domestic_count
     domestic_rate := formatRate domestic_count total
     year_breakdown := if 0 < total then yearCounts (df.filterMap (fun r => r.year)) else []
     ward_breakdown := wardB
     district_breakdown := districtB
     community_area_breakdown := caB
     primary_breakdown := primary
     top_locations := if 0 < total then (valueCounts blocks).take 5 else []
     sample_records := (df.take a.limit).map (fun r =>
       { rid := r.rid
         caseNumber := r.caseNumber
         date := r.date
         year := r.year
         block := r.block
         ward := cellStr r.ward
         district := cellStr r.district
         communityArea := cellStr r.communityArea
         locationDescription := cellStr r.locationDescription
         arrest := r.arrest
         domestic := r.domestic }) },
   st)

/-- Fixed explanation string returned by the classification-code lookup. -/
def iucrExplanation : String :=
  "IUCR stands for Illinois Uniform Crime Reporting. It" ++ sq ++
  "s a standardized system used by law enforcement agencies in Illinois to classify and report crimes."

/-- Result shapes of get_iucr_info (homicide_mcp.py lines 263-290). -/
inductive IucrResult where
  | codeInfo : String → String → String → Nat → String → IucrResult
  | overview : String → String → Nat → List String → IucrResult
  | err : String → IucrResult

/-- Minimum of a nonempty list of strings under the lexicographic order. -/
def strMin (s : String) : List String → String
  | [] => s
  | t :: ts => if t < s then strMin t ts else strMin s ts

/-- Model of Series.mode().iloc[0]: the smallest value among those of
maximal frequency (pandas mode returns the modes sorted ascending), or
"Unknown" on an empty series. -/
def iucrMode (codes : List String) : String :=
  let ks := keyCounts codes
  let maxC := ks.foldl (fun m p => max m p.2) 0
  match (ks.filter (fun p => p.2 = maxC)).map (fun p => p.1) with
  | [] => "Unknown"
  | c :: cs => strMin c cs

/-- The classification-code lookup, HomicideDataMCP.get_iucr_info
(homicide_mcp.py lines 263-290), in state-passing style. -/
def HomicideDataMCP.get_iucr_info (st : HomicideDataMCP) (iucr_code : Option String) :
    IucrResult × HomicideDataMCP :=
  match iucr_code with
  | some code =>
    let m := st.df.filter (fun r => decide (r.iucr = code))
    (match m with
     | [] => IucrResult.err ("IUCR code " ++ sq ++ code ++ sq ++ " not found")
     | r0 :: _ => IucrResult.codeInfo code r0.primaryType r0.description m.length iucrExplanation,
     st)
  | none =>
    let codes := st.df.map (fun r => r.iucr)
    (IucrResult.overview iucrExplanation (iucrMode codes)
      (dedupFirstAux [] codes).length
      (((valueCounts codes).take 5).map (fun p => p.1)), st)

/-- Result of get_statistics when no exception is raised. -/
structure StatsOk where
  total_homicides : Nat
  year_range : String
  arrests_made : Nat
  arrest_rate : String
  domestic_cases : Nat
  domestic_rate : String
  by_year : List (String × Nat)
  top_districts : List (String × Nat)
  top_wards : List (String × Nat)
  top_community_areas : List (String × Nat)

/-- Result of get_statistics: a complete statistics record, or the error
object produced by the blanket except clause. -/
inductive StatsResult where
  | ok : StatsOk → StatsResult
  | err : String → StatsResult

/-- Overall statistics, HomicideDataMCP.get_statistics (homicide_mcp.py
lines 192-225). Python filters with `if start_year:` / `if end_year:`, so a
zero bound is ignored. When the filtered frame has no numeric year,
int(min) raises on NaN and the except clause returns an error object. -/
def HomicideDataMCP.get_statistics (st : HomicideDataMCP)
    (start_year end_year : Option Int) : StatsResult × HomicideDataMCP :=
  let df1 : List Record :=
    match start_year with
    | some y => if y ≠ 0 then st.df.filter (fun (r : Record) =>
        match r.year with | none => false | some ry => decide (y ≤ ry)) else st.df
    | none => st.df
  let df : List Record :=
    match end_year with
    | some y => if y ≠ 0 then df1.filter (fun (r : Record) =>
        match r.year with | none => false | some ry => decide (ry ≤ y)) else df1
    | none => df1
  let years := df.filterMap (fun r => r.year)
  (match years.min?, years.max? with
   | some lo, some hi =>
     StatsResult.ok
       { total_homicides := df.length
         year_range := toString lo ++ " - " ++ toString hi
         arrests_made := df.countP (fun r => r.arrest)
         arrest_rate := formatRate (df.countP (fun r => r.arrest)) df.length
         domestic_cases := df.countP (fun r => r.domestic)
         domestic_rate := formatRate (df.countP (fun r => r.domestic)) df.length
         by_year := yearCounts years
         top_districts := (valueCounts (df.filterMap (fun r => r.district))).take 5
         top_wards := (valueCounts (df.filterMap (fun r => r.ward))).take 5
         top_community_areas := (valueCounts (df.filterMap (fun r => r.communityArea))).take 5 }
   | _, _ =>
     StatsResult.err "Error generating statistics: cannot convert float NaN to integer",
   st)

/-- One record echoed by search_by_location (homicide_mcp.py lines 240-251).
The year cell is shown through str(); this model prints the integer value
(Python would print the float form). -/
structure LocRec where
  rid : String
  caseNumber : String
  date : String
  year : String
  block : String
  locationDescription : String
  arrest : Bool
  domestic : Bool

/-- Result of search_by_location. -/
structure SearchResult where
  query : String
  total_matches : Nat
  returned_records : Nat
  records : List LocRec

/-- Display form of an optional year cell under str(). -/
def yearStr : Option Int → String
  | some y => toString y
  | none => "nan"

/-- Location search, HomicideDataMCP.search_by_location (homicide_mcp.py
lines 227-261): case-insensitive containment in the block or the location
description, null cells never matching. -/
def HomicideDataMCP.search_by_location (st : HomicideDataMCP)
    (location_query : String) (limit : Nat) : SearchResult × HomicideDataMCP :=
  let m : List Record := st.df.filter (fun (r : Record) =>
    containsCI r.block location_query ||
    (match r.locationDescription with
     | some l => containsCI l location_query
     | none => false))
  ({ query := location_query
     total_matches := m.length
     returned_records := (m.take limit).length
     records := (m.take limit).map (fun r =>
       { rid := r.rid
         caseNumber := r.caseNumber
         date := r.date
         year := yearStr r.year
         block := r.block
         locationDescription := cellStr r.locationDescription
         arrest := r.arrest
         domestic := r.domestic }) }, st)

/-- One record echoed by get_records_by_year (homicide_mcp.py lines 166-180). -/
structure YearRec where
  rid : String
  caseNumber : String
  date : String
  block : String
  iucr : String
  description : String
  locationDescription : String
  arrest : Bool
  domestic : Bool
  district : String
  ward : String
  communityArea : String

/-- Result of get_records_by_year. -/
structure YearQueryResult where
  year : Int
  total_records : Nat
  returned_records : Nat
  records : List YearRec

/-- Year query, HomicideDataMCP.get_records_by_year (homicide_mcp.py
lines 160-190). -/
def HomicideDataMCP.get_records_by_year (st : HomicideDataMCP)
    (year : Int) (limit : Nat) : YearQueryResult × HomicideDataMCP :=
  let m := st.df.filter (fun r => decide (r.year = some year))
  ({ year := year
     total_records := m.length
     returned_records := (m.take limit).length
     records := (m.take limit).map (fun r =>
       { rid := r.rid
         caseNumber := r.caseNumber
         date := r.date
         block := r.block
         iucr := r.iucr
         description := r.description
         locationDescription := cellStr r.locationDescription
         arrest := r.arrest
         domestic := r.domestic
         district := cellStr r.district
         ward := cellStr r.ward
         communityArea := cellStr r.communityArea }) }, st)

/-- Result shapes the dispatcher can hand to the Result Formatter: the error
object (an `error` key, checked first by format_tool_result), the
advanced-query shape, and the two classification-code shapes. The key-presence
dispatch of the Python formatter becomes a constructor match because these
shapes are disjoint. -/
inductive ToolResult where
  | err : String → ToolResult
  | adv : AdvResult → ToolResult
  | iucrCode : String → String → String → Nat → String → ToolResult
  | iucrOverview : String → String → Nat → List String → ToolResult

/-- Python str.join with a separator. -/
def joinSep (sep : String) : List String → String
  | [] => ""
  | [x] => x
  | x :: y :: t => x ++ sep ++ joinSep sep (y :: t)

/-- Python str.title on ASCII text: an alphabetic character is upper-cased
after a non-alphabetic one and lower-cased otherwise. -/
def pyTitleAux : Bool → List Char → List Char
  | _, [] => []
  | prevAlpha, c :: cs =>
    if c.isAlpha then (if prevAlpha then c.toLower else c.toUpper) :: pyTitleAux true cs
    else c :: pyTitleAux false cs

/-- Python str.title. -/
def pyTitle (s : String) : String := String.mk (pyTitleAux false s.toList)

/-- Replace underscores by spaces, Python str.replace. -/
def underscoreToSpace (s : String) : String :=
  String.mk (s.toList.map (fun c => if c = '_' then ' ' else c))

/-- Insert into a key-ascending list of string-keyed counts. -/
def insertStrAsc (x : String × Nat) : List (String × Nat) → List (String × Nat)
  | [] => [x]
  | y :: ys => if x.1 ≤ y.1 then x :: y :: ys else y :: insertStrAsc x ys

/-- Sort string-keyed counts ascending by key, modelling Python
sorted(d.items()). -/
def sortStrAsc : List (String × Nat) → List (String × Nat)
  | [] => []
  | x :: xs => insertStrAsc x (sortStrAsc xs)

/-- Lines of one breakdown section of the formatter. -/
def breakdownLines (label : String) : List (String × Nat) → String :=
  fun items => String.join (items.map (fun p =>
    "  " ++ label ++ p.1 ++ ": " ++ toString p.2 ++ " homicides\n"))

/-- Display of the optional year of a sample record under an f-string. -/
def yearDisp : Option Int → String
  | some y => toString y
  | none => "None"

/-- Sample-record block of the formatter, enumerate(..., 1). -/
def numberedSamples : Nat → List SampleRec → String
  | _, [] => ""
  | i, s :: t =>
    toString i ++ ". **Case " ++ s.caseNumber ++ "** (" ++ yearDisp s.year ++ ")\n" ++
    "   Ward: " ++ s.ward ++ ", District: " ++ s.district ++ "\n" ++
    "   Location: " ++ s.block ++ "\n" ++
    "   Arrest: " ++ (if s.arrest then "Yes" else "No") ++ "\n\n" ++
    numberedSamples (i + 1) t

/-- Advanced-query branch of MCPIntegration.format_tool_result
(mcp_integration.py lines 150-227). -/
def formatAdvanced (r : AdvResult) : String :=
  let s0 := "🔍 **Advanced Homicide Query Results**\n"
  let s1 :=
    if r.filters_applied.isEmpty then ""
    else "**Filters Applied:** " ++ joinSep ", " r.filters_applied ++ "\n\n"
  let s2 := "**Summary:**\n" ++
    "  Total matches: " ++ toString r.total_matches ++ "\n" ++
    "  Arrests made: " ++ toString r.arrest_count ++ " (" ++ r.arrest_rate ++ ")\n" ++
    "  Domestic cases: " ++ toString r.domestic_count ++ " (" ++ r.domestic_rate ++ ")\n\n"
  let pbPart : Option String :=
    match r.primary_breakdown with
    | some (t, data) =>
      if data.isEmpty then none
      else
        let bt := pyTitle (underscoreToSpace t)
        let sd := sortByCountDesc data
        some ("**" ++ bt ++ " Breakdown (Ranked by Count):**\n" ++
          (if t = "location" then breakdownLines "" sd else breakdownLines (bt ++ " ") sd) ++
          "\n" ++
          (match sd with
           | [] => ""
           | top :: _ =>
             "**Answer: " ++ bt ++ " " ++ top.1 ++ " had the most with " ++
             toString top.2 ++ " homicides.**\n\n"))
    | none => none
  let s3 :=
    match pbPart with
    | some txt => txt
    | none =>
      (if r.year_breakdown.isEmpty then ""
       else "**Year Breakdown:**\n" ++
         String.join ((sortStrAsc r.year_breakdown).map (fun p =>
           "  " ++ p.1 ++ ": " ++ toString p.2 ++ " homicides\n")) ++ "\n") ++
      (if r.ward_breakdown.isEmpty then ""
       else "**Ward Breakdown (Top " ++ toString r.ward_breakdown.length ++ "):**\n" ++
         breakdownLines "Ward " (sortByCountDesc r.ward_breakdown) ++ "\n") ++
      (if r.district_breakdown.isEmpty then ""
       else "**District Breakdown (Top " ++ toString r.district_breakdown.length ++ "):**\n" ++
         breakdownLines "District " (sortByCountDesc r.district_breakdown) ++ "\n") ++
      (if r.community_area_breakdown.isEmpty then ""
       else "**Community Area Breakdown (Top " ++
         toString r.community_area_breakdown.length ++ "):**\n" ++
         breakdownLines "Community Area " (sortByCountDesc r.community_area_breakdown) ++ "\n")
  let s4 :=
    if r.top_locations.isEmpty then ""
    else "**Top Locations:**\n" ++
      String.join ((r.top_locations.take 3).map (fun p =>
        "  " ++ p.1 ++ ": " ++ toString p.2 ++ " cases\n")) ++ "\n"
  let s5 :=
    if r.sample_records.isEmpty then ""
    else "**Sample Records (" ++ toString r.sample_records.length ++ "):**\n" ++
      numberedSamples 1 (r.sample_records.take 3)
  s0 ++ s1 ++ s2 ++ s3 ++ s4 ++ s5

/-- The Result Formatter, MCPIntegration.format_tool_result
(mcp_integration.py lines 143-299). The error shape short-circuits first. -/
def format_tool_result : ToolResult → String
  | ToolResult.err e => "❌ Error: " ++ e
  | ToolResult.adv r => formatAdvanced r
  | ToolResult.iucrCode code ptype desc total expl =>
    "📋 **IUCR Code: " ++ code ++ "**\n" ++
    "Type: " ++ ptype ++ "\n" ++
    "Description: " ++ desc ++ "\n" ++
    "Total cases: " ++ toString total ++ "\n\n" ++ expl
  | ToolResult.iucrOverview expl _mode uniq sample =>
    "📋 **IUCR System Overview**\n" ++ expl ++ "\n\n" ++
    "Unique codes in dataset: " ++ toString uniq ++ "\n" ++
    "Most common codes: " ++ joinSep ", " sample ++ "\n"

/-- Names of the two catalog entries, as listed both by
IntelligentMCPHandler.tools and by create_homicide_tools. -/
def availableToolNames : List String := ["query_homicides_advanced", "get_iucr_info"]

/-- Optional integer argument: absent or JSON null count as unset; an
integer-lexeme number is coerced; any other value would raise inside pandas
and is reported as a failed extraction. -/
def getIntArg (d : PyDict) (k : String) : Option (Option Int) :=
  match pyGet d k with
  | none => some none
  | some Json.jnull => some none
  | some (Json.jnum s) => (toNumCell (some s)).map (fun n => some n)
  | some _ => none

/-- Optional natural-number argument (top_n / limit). -/
def getNatArg (d : PyDict) (k : String) : Option (Option Nat) :=
  match getIntArg d k with
  | none => none
  | some none => some none
  | some (some n) => if 0 ≤ n then some (some n.toNat) else none

/-- Optional boolean argument. -/
def getBoolArg (d : PyDict) (k : String) : Option (Option Bool) :=
  match pyGet d k with
  | none => some none
  | some Json.jnull => some none
  | some (Json.jbool b) => some (some b)
  | some _ => none

/-- Optional string argument. -/
def getStrArg (d : PyDict) (k : String) : Option (Option String) :=
  match pyGet d k with
  | none => some none
  | some Json.jnull => some none
  | some (Json.jstr s) => some (some s)
  | some _ => none

/-- Extraction of the advanced-query arguments by MCPIntegration.call_tool
(mcp_integration.py lines 64-76), with its defaults top_n = 10 and
limit = 100. A wrong-typed value makes the extraction fail; the accessor
would raise on it and return its own error object. -/
def extractAdvArgs (d : PyDict) : Option AdvArgs := do
  let sy ← getIntArg d "start_year"
  let ey ← getIntArg d "end_year"
  let w ← getIntArg d "ward"
  let di ← getIntArg d "district"
  let ca ← getIntArg d "community_area"
  let ar ← getBoolArg d "arrest_status"
  let dm ← getBoolArg d "domestic"
  let lt ← getStrArg d "location_type"
  let gb ← getStrArg d "group_by"
  let tn ← getNatArg d "top_n"
  let lim ← getNatArg d "limit"
  pure
    { start_year := sy, end_year := ey, ward := w, district := di,
      community_area := ca, arrest_status := ar, domestic := dm,
      location_type := lt, group_by := gb,
      top_n := tn.getD 10, limit := lim.getD 100 }

/-- Conversion of a classification-lookup result to the formatter shape. -/
def iucrToTool : IucrResult → ToolResult
  | IucrResult.err e => ToolResult.err e
  | IucrResult.codeInfo c p dsc n e => ToolResult.iucrCode c p dsc n e
  | IucrResult.overview e m u s => ToolResult.iucrOverview e m u s

/-- Python str() display of a primitive JSON value (composite display is
modelled; no claim depends on it). -/
def pyStrJson : Json → String
  | Json.jnull => "None"
  | Json.jbool b => pyBoolStr b
  | Json.jnum s => s
  | Json.jstr s => s
  | Json.jarr _ => "[...]"
  | Json.jobj _ => "\x7b...\x7d"

/-- The integration-layer dispatcher, MCPIntegration.call_tool
(mcp_integration.py lines 51-87): unknown names are rejected with a message
listing the valid names; known names are routed to the accessor, whose
exceptions become error objects. -/
def call_tool (st : HomicideDataMCP) (tool_name : String) (arguments : Json) : ToolResult :=
  if (tool_name ∈ availableToolNames : Bool) then
    match arguments with
    | Json.jobj d =>
      if tool_name = "query_homicides_advanced" then
        match extractAdvArgs d with
        | some a => ToolResult.adv (st.query_homicides_advanced a).1
        | none => ToolResult.err "Error in advanced query: unsupported argument type"
      else
        match pyGet d "iucr_code" with
        | none => iucrToTool (st.get_iucr_info none).1
        | some Json.jnull => iucrToTool (st.get_iucr_info none).1
        | some (Json.jstr s) => iucrToTool (st.get_iucr_info (some s)).1
        | some v =>
          ToolResult.err ("IUCR code " ++ sq ++ pyStrJson v ++ sq ++ " not found")
    | _ =>
      ToolResult.err ("Error calling tool " ++ sq ++ tool_name ++ sq ++
        ": arguments object expected")
  else
    ToolResult.err ("Tool " ++ sq ++ tool_name ++ sq ++ " not found. Available tools: " ++
      joinSep ", " availableToolNames)

/-- Python truthiness of a JSON value; the truthiness of a number is modelled
on its lexeme. -/
def jsonTruthy : Json → Bool
  | Json.jnull => false
  | Json.jbool b => b
  | Json.jnum s => ¬(s = "0" ∨ s = "-0" ∨ s = "0.0" ∨ s = "-0.0")
  | Json.jstr s => s ≠ ""
  | Json.jarr l => ¬l.isEmpty
  | Json.jobj d => ¬d.isEmpty

/-- Python str() of the optional tool name. -/
def pyStrOpt : Option Json → String
  | none => "None"
  | some v => pyStrJson v

/-- Truthiness of the optional tool name: `not tool_name` in Python. -/
def nameTruthy : Option Json → Bool
  | some v => jsonTruthy v
  | none => false

/-- Membership of the tool name in the catalog name list:
`tool_name in [tool["name"] for tool in self.tools]`. A non-string value is
never equal to a name string. -/
def isKnownName : Option Json → Bool
  | some (Json.jstr s) => decide (s ∈ availableToolNames)
  | _ => false

/-- Execution record built by IntelligentMCPHandler.execute_tool_call
(intelligent_mcp.py lines 134-169). -/
structure ExecSummary where
  tool_name : Option Json
  arguments : Json
  raw_result : Option ToolResult
  formatted_result : String
  error : Option String

/-- The Call Dispatcher, IntelligentMCPHandler.execute_tool_call
(intelligent_mcp.py lines 134-169), parameterized by the integration-layer
call so that independence from it (the accessor is never invoked) is a
provable statement. A falsy or unknown tool name is rejected before any
call; an error-keyed result is surfaced with its message; otherwise the
result is formatted. call_tool catches accessor exceptions itself, so the
final except branch of the Python code is not reachable in this model. -/
def execute_tool_call (callTool : String → Json → ToolResult) (tc : PyDict) : ExecSummary :=
  let tool_name := pyGet tc nameKey
  let arguments := (pyGet tc argumentsKey).getD (Json.jobj [])
  if nameTruthy tool_name = false ∨ isKnownName tool_name = false then
    { tool_name := tool_name, arguments := arguments, raw_result := none,
      error := some ("Unknown tool: " ++ pyStrOpt tool_name),
      formatted_result := "❌ Unknown tool: " ++ pyStrOpt tool_name }
  else
    let s := match tool_name with | some (Json.jstr s) => s | _ => ""
    let result := callTool s arguments
    match result with
    | ToolResult.err e =>
      { tool_name := tool_name, arguments := arguments, raw_result := some result,
        error := some e, formatted_result := "❌ " ++ e }
    | _ =>
      { tool_name := tool_name, arguments := arguments, raw_result := some result,
        error := none, formatted_result := format_tool_result result }

/-- Response shape of the Model Gateway wrapper. -/
structure LlamaResponse where
  content : String
  needs_tool_call : Bool

/-- LlamaClient.generate_with_tools (llama_client.py lines 36-92), as a
function of the backend outcome (the chat call either returns content or
raises with a message): on success the tool-call signal is the presence of
the sentinel in the content; on an exception the error text is returned
with the signal forced to false. -/
def generate_with_tools (backendOutcome : Except String String) : LlamaResponse :=
  match backendOutcome with
  | Except.ok content =>
    { content := content, needs_tool_call := containsList content.toList sentinelL }
  | Except.error e =>
    { content := "❌ Error generating response: " ++ e, needs_tool_call := false }

/-- The follow-up prompt of the second model call
(intelligent_mcp.py lines 224-230). -/
def followUpPrompt (formatted question : String) : String :=
  "Based on this data about homicides:\n\n" ++ formatted ++
  "\n\nPlease answer the original question: \x22" ++ question ++
  "\x22\n\nProvide a clear, informative answer based on the data."

/-- The Orchestrator, IntelligentMCPHandler.handle_question_with_tools
(intelligent_mcp.py lines 171-236), returning the final answer. The result
is none exactly when the Python code would raise: the trace print at line
209 evaluates tool_call[`name`], so a parsed call lacking a name key (only
producible by the fallback extraction path) raises KeyError. -/
def handle_question_with_tools (question : String) (resp : LlamaResponse)
    (generate : String → String) (callTool : String → Json → ToolResult) :
    Option String :=
  if ¬resp.needs_tool_call then some resp.content
  else
    match parse_tool_call resp.content.toList with
    | none => some ("❌ Could not parse tool call from response: " ++ resp.content)
    | some tc =>
      match pyGet tc nameKey with
      | none => none
      | some _ =>
        let ex := execute_tool_call callTool tc
        if ex.error.isSome then some ex.formatted_result
        else some (generate (followUpPrompt ex.formatted_result question))

/-- Result view of the advanced query (its first component). -/
def advOf (st : HomicideDataMCP) (a : AdvArgs) : AdvResult :=
  (st.query_homicides_advanced a).1

/-- The records matched by the filters of an advanced query. -/
def matchedRecords (st : HomicideDataMCP) (a : AdvArgs) : List Record :=
  st.df.filter (matchesFilters a)

/-- The non-null ward cells of the matched records. -/
def matchedWards (st : HomicideDataMCP) (a : AdvArgs) : List String :=
  (matchedRecords st a).filterMap (fun r => r.ward)

/-- The non-null district cells of the matched records. -/
def matchedDistricts (st : HomicideDataMCP) (a : AdvArgs) : List String :=
  (matchedRecords st a).filterMap (fun r => r.district)

/-- The non-null community-area cells of the matched records. -/
def matchedCAs (st : HomicideDataMCP) (a : AdvArgs) : List String :=
  (matchedRecords st a).filterMap (fun r => r.communityArea)

/- Concrete instances used by counterexamples and by witnesses. -/

/-- A record template over the ward cell. -/
def mkRec (w : Option String) : Record :=
  { rid := "1", caseNumber := "C100", date := "01/01/2023", year := some 2023,
    block := "001XX MAIN ST", iucr := "0110", primaryType := "HOMICIDE",
    description := "FIRST DEGREE MURDER", locationDescription := some "STREET",
    arrest := false, domestic := false, district := some "1", ward := w,
    communityArea := some "1" }

/-- Unterminated tool call: sentinel, object with no closing brace at all. -/
def c2input : String := "TOOL_CALL: \x7b\"name\": \"get_iucr_info\""

/-- Input whose primary extraction fails on an invalid span while the
fallback matches a later sentinel whose object has no name key. -/
def c3input : String := "TOOL_CALL: x \x7boops\x7d TOOL_CALL: \x7b\"a\": 1\x7d"

/-- The dict parse_tool_call returns on c3input. -/
def c3dict : PyDict := [("a", Json.jnum "1"), ("arguments", Json.jobj [])]

/-- Input on which both extraction tiers fail. -/
def c3bothFail : String := "TOOL_CALL: \x7b"

/-- Input whose primary extraction parses an object lacking a name key. -/
def c3noName : String := "TOOL_CALL: \x7b\"a\": 1\x7d"

/-- A spy in place of the integration-layer call: if the dispatcher invoked
it, results would show its marker. -/
def spyTool : String → Json → ToolResult := fun _ _ => ToolResult.err "accessor invoked"

/-- A second, different spy, to witness independence from the call layer. -/
def spyTool2 : String → Json → ToolResult := fun _ _ => ToolResult.err "other accessor"

/-- The dispatcher scenario call of claim C4. -/
def c4call : PyDict := [("name", Json.jstr "nonexistent_tool"), ("arguments", Json.jobj [])]

/-- An accessor with two records in ward 1 and one in ward 2. -/
def db3 : HomicideDataMCP := ⟨[mkRec (some "1"), mkRec (some "1"), mkRec (some "2")]⟩

/-- Advanced-query arguments asking for one-entry breakdowns, no group_by. -/
def a5 : AdvArgs := { top_n := 1 }

/-- An accessor with the ward spread 7 ↦ 3, 12 ↦ 3, 3 ↦ 2 (the tie scenario
of the specification, scaled down), wards 7 first in dataset order. -/
def db6 : HomicideDataMCP :=
  ⟨[mkRec (some "7"), mkRec (some "7"), mkRec (some "7"),
    mkRec (some "12"), mkRec (some "12"), mkRec (some "12"),
    mkRec (some "3"), mkRec (some "3")]⟩

/-- An accessor whose single record has a null ward cell. -/
def db6n : HomicideDataMCP := ⟨[mkRec none]⟩

/-- Arguments selecting the ward grouping. -/
def a6 : AdvArgs := { group_by := some "ward", top_n := 10, limit := 100 }

/-- The empty accessor. -/
def dbEmpty : HomicideDataMCP := ⟨[]⟩

/-- Advanced-query arguments with every filter unset. -/
def argsNone : AdvArgs := {}

/-- The claim C6 marker text. -/
def hadTheMost : String := "had the most with "

/-- Error message raised by a model backend whose text happens to contain
the sentinel. -/
def c10err : String := "TOOL_CALL: connection reset"

/-- Orchestrator response that signals a tool call but contains none. -/
def respNoCall : LlamaResponse := ⟨"TOOL_CALL: no json here", true⟩

/-- Orchestrator response calling an unknown tool. -/
def respBogus : LlamaResponse := ⟨"TOOL_CALL: \x7b\"name\": \"bogus\"\x7d", true⟩

/-- Orchestrator response calling the classification-code overview. -/
def respIucr : LlamaResponse := ⟨"TOOL_CALL: \x7b\"name\": \"get_iucr_info\"\x7d", true⟩

/-- A concrete second-stage generator. -/
def genA : String → String := fun _ => "final answer A"

/-- Another concrete second-stage generator. -/
def genB : String → String := fun _ => "final answer B"

/-- Primitive JSON value check: a single-level object maps keys to
primitives (the ToolCall data model of the specification). -/
def primVal : Json → Bool
  | Json.jnull => true
  | Json.jbool _ => true
  | Json.jnum _ => true
  | Json.jstr _ => true
  | Json.jarr _ => false
  | Json.jobj _ => false

/-- Single-level check on an object: every member value is a primitive. -/
def primObj : PyDict → Bool
  | [] => true
  | (_, v) :: t => primVal v && primObj t

/-- Characters with no role in the brace-matching loop: not a backslash, not
a quote, not a brace. -/
def notSpecial (c : Char) : Bool :=
  !(c = bslash || c = dquote || c = lbrace || c = rbrace)

/-- A span is depth-neutral when scanning it outside quotes at any positive
brace count returns the same state without breaking. -/
def NeutralV (sp : List Char) : Prop :=
  ∀ bc : Int, 1 ≤ bc → scanNoStop bc false false sp = some (bc, false, false)

/-- A quoted span (a string-literal body including its closing quote) leaves
the count unchanged and ends outside quotes, at any count. -/
def QNeutral (sp : List Char) : Prop :=
  ∀ bc : Int, scanNoStop bc true false sp = some (bc, false, false)

/-- The C1 witness prefix. -/
def w1pre : String := "I will query now. "

/-- The C1 witness whitespace between sentinel and object. -/
def w1ws : String := " "

/-- The C1 witness object text, a single-level object with no arguments key. -/
def w1obj : String := "\x7b\"name\": \"get_iucr_info\", \"why\": \"user asked\"\x7d"

/-- The C1 witness suffix. -/
def w1suf : String := " Done."

/-- The C1 witness object value. -/
def w1kvs : PyDict :=
  [("name", Json.jstr "get_iucr_info"), ("why", Json.jstr "user asked")]

/-- The count spread of the claim C6 tie scenario. -/
def c6data : List (String × Nat) := [("7", 3), ("12", 3), ("3", 2)]

/-- Its first-seen top entry. -/
def c6top : String × Nat := ("7", 3)

/-- The remaining entries after the top one. -/
def c6rest : List (String × Nat) := [("12", 3), ("3", 2)]

/-- The claim C8 witness question. -/
def c8q : String := "what changed in 2023"

/-- The parsed call of the unknown-tool witness response. -/
def c8bogusTc : PyDict := [("name", Json.jstr "bogus"), ("arguments", Json.jobj [])]

/-- The parsed call of the successful witness response. -/
def c8iucrTc : PyDict := [("name", Json.jstr "get_iucr_info"), ("arguments", Json.jobj [])]

/- Theorems. General-purpose lemmas first, then one theorem per claim with
its witness or counterexample. -/

/-- Claim C2 (code bug evidence): the specification claims that a sentinel
followed by an unterminated JSON object (missing its final closing brace,
no string-embedded unbalanced braces) is still recovered by appending a
single closing brace. In the code, when the matching loop finds no closing
brace, json_end is never advanced past json_start, so the extracted span is
empty; the appended brace yields a lone closing brace that never parses, and
the fallback pattern requires a closing brace in the input. The extractor
therefore returns none on the failing input, and its primary candidate is
literally the one-character closing-brace string. -/
theorem claim_C2_unterminated_not_recovered :
    parse_tool_call c2input.toList = none ∧
    primaryCandidate c2input.toList = some [rbrace] :=
  ⟨rfl, rfl⟩

/-- Claim C3 (counterexample): the input c3input contains an invalid primary
span, so the primary parse fails; the fallback pattern then captures a valid
object with no name key at the second sentinel, and parse_tool_call returns
that object (with the arguments default) instead of none. -/
theorem claim_C3_counterexample :
    parse_tool_call c3input.toList = some c3dict ∧ hasKey c3dict nameKey = false :=
  ⟨rfl, rfl⟩

/-- Claim C3 (amended): the extractor returns none whenever json.loads fails
on both the primary extraction and the fallback capture, and whenever the
object parsed on the primary path lacks a name key; the fallback path,
however, performs no name check (see the counterexample). The embedding is a
total function, so no exception is raised on any input. -/
theorem claim_C3_soft_failure :
    (∀ cs : List Char, primaryJson cs = none → fallbackJson cs = none →
      parse_tool_call cs = none) ∧
    (∀ (cs : List Char) (d : PyDict), primaryJson cs = some (Json.jobj d) →
      hasKey d nameKey = false → parse_tool_call cs = none) := by
  constructor
  · intro cs hp hf
    unfold parse_tool_call
    split
    · rcases hc : primaryCandidate cs with _ | tj
      · simp
      · have hl : json_loadsL tj = none := by
          unfold primaryJson at hp
          rw [hc] at hp
          simpa using hp
        simp [hl, hf]
    · rfl
  · intro cs d hp hn
    unfold parse_tool_call
    split
    · rcases hc : primaryCandidate cs with _ | tj
      · simp
      · have hl : json_loadsL tj = some (Json.jobj d) := by
          unfold primaryJson at hp
          rw [hc] at hp
          simpa using hp
        simp [hl, hn]
    · rfl

/-- Claim C3 witness: both failure modes at concrete inputs, via the
amended theorem. -/
theorem claim_C3_witness :
    parse_tool_call c3bothFail.toList = none ∧ parse_tool_call c3noName.toList = none :=
  ⟨claim_C3_soft_failure.1 c3bothFail.toList rfl rfl,
   claim_C3_soft_failure.2 c3noName.toList [("a", Json.jnum "1")] rfl rfl⟩

/-- Claim C4 (counterexample): on the scenario call the dispatcher produces
the exact formatted line and an error naming the unknown tool, but that
error does not list the valid tool names (no catalog name and no available
tools listing occurs in it): the listing claimed by the specification lives
only in MCPIntegration.call_tool, which is never reached for unknown names. -/
theorem claim_C4_counterexample :
    (execute_tool_call spyTool c4call).formatted_result = "❌ Unknown tool: nonexistent_tool" ∧
    (execute_tool_call spyTool c4call).error = some "Unknown tool: nonexistent_tool" ∧
    containsList ("Unknown tool: nonexistent_tool").toList
      ("query_homicides_advanced").toList = false ∧
    containsList ("Unknown tool: nonexistent_tool").toList
      ("get_iucr_info").toList = false ∧
    containsList ("Unknown tool: nonexistent_tool").toList
      ("Available tools").toList = false :=
  ⟨rfl, rfl, rfl, rfl, rfl⟩

/-- Claim C4 (amended): for every tool call whose name is falsy or not a
catalog name, the dispatcher result is the same for any two integration
layers (the Dataset Accessor is never invoked), the error result names the
unknown tool (without listing the valid names), and the formatted result is
the unknown-tool line; on the scenario call this is exactly the scenario
string (see the witness). -/
theorem claim_C4_unknown_tool (tc : PyDict) (f g : String → Json → ToolResult)
    (h : isKnownName (pyGet tc nameKey) = false) :
    execute_tool_call f tc = execute_tool_call g tc ∧
    (execute_tool_call f tc).error = some ("Unknown tool: " ++ pyStrOpt (pyGet tc nameKey)) ∧
    (execute_tool_call f tc).formatted_result =
      "❌ Unknown tool: " ++ pyStrOpt (pyGet tc nameKey) := by
  unfold execute_tool_call
  simp [h]

/-- Claim C4 witness: the amended theorem at the scenario call, with two
distinct spies in place of the integration layer. -/
theorem claim_C4_witness :
    execute_tool_call spyTool c4call = execute_tool_call spyTool2 c4call ∧
    (execute_tool_call spyTool c4call).error =
      some ("Unknown tool: " ++ pyStrOpt (pyGet c4call nameKey)) ∧
    (execute_tool_call spyTool c4call).formatted_result =
      "❌ Unknown tool: " ++ pyStrOpt (pyGet c4call nameKey) :=
  claim_C4_unknown_tool c4call spyTool spyTool2 rfl

/-- Claim C9: every query operation of the Dataset Accessor leaves the
backing record collection unchanged: the post-call state equals the
pre-call state for all five operations and all arguments. -/
theorem claim_C9_queries_pure (st : HomicideDataMCP) :
    (∀ a, (st.query_homicides_advanced a).2 = st) ∧
    (∀ c, (st.get_iucr_info c).2 = st) ∧
    (∀ sy ey, (st.get_statistics sy ey).2 = st) ∧
    (∀ q lim, (st.search_by_location q lim).2 = st) ∧
    (∀ y lim, (st.get_records_by_year y lim).2 = st) :=
  ⟨fun _ => rfl,
   fun c => by cases c <;> rfl,
   fun _ _ => rfl,
   fun _ _ => rfl,
   fun _ _ => rfl⟩

/-- Claim C10 (counterexample): when the backend raises with a message that
itself contains the sentinel, the returned content contains TOOL_CALL: while
needs_tool_call is false, refuting the claimed equivalence between the
signal and sentinel-containment of the returned content. -/
theorem claim_C10_counterexample :
    (generate_with_tools (Except.error c10err)).needs_tool_call = false ∧
    containsList (generate_with_tools (Except.error c10err)).content.toList sentinelL = true :=
  ⟨rfl, rfl⟩

/-- Claim C10 (amended): on a successful backend call the wrapper returns
the content with the signal equal to sentinel-containment of that content;
on a raising backend it returns the error text with the signal false, even
when that text happens to contain the sentinel. -/
theorem claim_C10_signal :
    (∀ s : String, generate_with_tools (Except.ok s) =
      { content := s, needs_tool_call := containsList s.toList sentinelL }) ∧
    (∀ e : String, generate_with_tools (Except.error e) =
      { content := "❌ Error generating response: " ++ e, needs_tool_call := false }) :=
  ⟨fun _ => rfl, fun _ => rfl⟩

/-- Membership through the stable count-descending insertion. -/
theorem insertByCount_mem {α : Type} (x y : α × Nat) (l : List (α × Nat)) :
    x ∈ insertByCount y l ↔ x = y ∨ x ∈ l := by
  induction l with
  | nil => simp [insertByCount]
  | cons z t ih =>
    by_cases h : z.2 ≤ y.2
    · simp [insertByCount, h]
    · simp only [insertByCount, if_neg h, List.mem_cons, ih]
      tauto

/-- Membership through the stable count-descending sort. -/
theorem sortByCountDesc_mem {α : Type} (x : α × Nat) (l : List (α × Nat)) :
    x ∈ sortByCountDesc l ↔ x ∈ l := by
  induction l with
  | nil => simp [sortByCountDesc]
  | cons z t ih => simp [sortByCountDesc, insertByCount_mem, ih]

/-- Deduplicated keys come from the original list. -/
theorem dedupFirstAux_sub {α : Type} [DecidableEq α] (x : α) :
    ∀ (seen l : List α), x ∈ dedupFirstAux seen l → x ∈ l := by
  intro seen l
  induction l generalizing seen with
  | nil => simp [dedupFirstAux]
  | cons z t ih =>
    intro hx
    simp only [dedupFirstAux] at hx
    by_cases h : z ∈ seen
    · rw [if_pos h] at hx
      exact List.mem_cons_of_mem _ (ih _ hx)
    · rw [if_neg h] at hx
      rcases List.mem_cons.mp hx with h1 | h2
      · exact h1 ▸ List.mem_cons_self _ _
      · exact List.mem_cons_of_mem _ (ih _ h2)

/-- Every entry of a key-count table is a key of the list with its exact
multiplicity over the whole list. -/
theorem keyCounts_spec {α : Type} [DecidableEq α] (k : α) (c : Nat) (l : List α)
    (h : (k, c) ∈ keyCounts l) :
    k ∈ l ∧ c = l.countP (fun y => decide (y = k)) := by
  unfold keyCounts at h
  rcases List.mem_map.mp h with ⟨k0, hk0, heq⟩
  cases heq
  exact ⟨dedupFirstAux_sub _ _ _ hk0, rfl⟩

/-- Truncated value-counts breakdowns: bounded length, and every entry is a
genuine key of the list counted over the whole list. -/
theorem breakdown_spec (l : List String) (n : Nat) :
    ((valueCounts l).take n).length ≤ n ∧
    ∀ k c, (k, c) ∈ (valueCounts l).take n →
      k ∈ l ∧ c = l.countP (fun y => decide (y = k)) := by
  constructor
  · exact List.length_take_le n _
  · intro k c hm
    have h1 : (k, c) ∈ valueCounts l := List.mem_of_mem_take hm
    have h2 : (k, c) ∈ keyCounts l := (sortByCountDesc_mem _ _).mp h1
    exact keyCounts_spec k c l h2

/-- Ward breakdown of the advanced query, unfolded. -/
theorem advOf_ward_breakdown (st : HomicideDataMCP) (a : AdvArgs) :
    (advOf st a).ward_breakdown =
      if 0 < (matchedRecords st a).length
      then (valueCounts (matchedWards st a)).take a.top_n else [] := rfl

/-- District breakdown of the advanced query, unfolded. -/
theorem advOf_district_breakdown (st : HomicideDataMCP) (a : AdvArgs) :
    (advOf st a).district_breakdown =
      if 0 < (matchedRecords st a).length
      then (valueCounts (matchedDistricts st a)).take a.top_n else [] := rfl

/-- Community-area breakdown of the advanced query, unfolded. -/
theorem advOf_ca_breakdown (st : HomicideDataMCP) (a : AdvArgs) :
    (advOf st a).community_area_breakdown =
      if 0 < (matchedRecords st a).length
      then (valueCounts (matchedCAs st a)).take a.top_n else [] := rfl

/-- One breakdown obligation of claim C5. -/
theorem breakdown_claim_aux (keys : List String) (n total : Nat) :
    (if 0 < total then (valueCounts keys).take n else []).length ≤ n ∧
    ∀ k c, (k, c) ∈ (if 0 < total then (valueCounts keys).take n else []) →
      k ∈ keys ∧ c = keys.countP (fun y => decide (y = k)) := by
  by_cases h : 0 < total
  · rw [if_pos h]
    exact breakdown_spec keys n
  · rw [if_neg h]
    exact ⟨Nat.zero_le n, by intro k c hm; simp at hm⟩

/-- Claim C5 (counterexample): with matches in two distinct wards and
top_n = 1 and no group_by, ward 2 is a distinct non-null key of the matches
yet absent from the ward breakdown: the breakdowns are truncated to top_n
even without group_by. -/
theorem claim_C5_counterexample :
    a5.group_by = none ∧
    matchedWards db3 a5 = ["1", "1", "2"] ∧
    (advOf db3 a5).ward_breakdown = [("1", 2)] ∧
    ¬(("2", 1) ∈ (advOf db3 a5).ward_breakdown) :=
  ⟨rfl, rfl, rfl, by decide⟩

/-- Claim C5 (amended): for every advanced query, the ward, district and
community-area breakdowns are truncated to at most top_n entries whether or
not group_by is used; each entry that does appear is a distinct non-null key
of the matching records, counted over ALL matching records. -/
theorem claim_C5_breakdowns (st : HomicideDataMCP) (a : AdvArgs) :
    (advOf st a).ward_breakdown.length ≤ a.top_n ∧
    (advOf st a).district_breakdown.length ≤ a.top_n ∧
    (advOf st a).community_area_breakdown.length ≤ a.top_n ∧
    (∀ k c, (k, c) ∈ (advOf st a).ward_breakdown →
      k ∈ matchedWards st a ∧
      c = (matchedWards st a).countP (fun y => decide (y = k))) ∧
    (∀ k c, (k, c) ∈ (advOf st a).district_breakdown →
      k ∈ matchedDistricts st a ∧
      c = (matchedDistricts st a).countP (fun y => decide (y = k))) ∧
    (∀ k c, (k, c) ∈ (advOf st a).community_area_breakdown →
      k ∈ matchedCAs st a ∧
      c = (matchedCAs st a).countP (fun y => decide (y = k))) := by
  have hw := breakdown_claim_aux (matchedWards st a) a.top_n (matchedRecords st a).length
  have hd := breakdown_claim_aux (matchedDistricts st a) a.top_n (matchedRecords st a).length
  have hc := breakdown_claim_aux (matchedCAs st a) a.top_n (matchedRecords st a).length
  rw [advOf_ward_breakdown, advOf_district_breakdown, advOf_ca_breakdown]
  exact ⟨hw.1, hd.1, hc.1, hw.2, hd.2, hc.2⟩

/-- Claim C5 witness: the amended theorem instantiated on the concrete
dataset, reading off the surviving entry of the truncated ward breakdown. -/
theorem claim_C5_witness :
    "1" ∈ matchedWards db3 a5 ∧
    2 = (matchedWards db3 a5).countP (fun y => decide (y = "1")) :=
  (claim_C5_breakdowns db3 a5).2.2.2.1 "1" 2 (by decide)

/-- Shape of a formatted one-decimal rate whose numerator is at most its
denominator: integer and decimal digit with value at most one hundred. -/
theorem formatRate_shape (n d : Nat) (h : n ≤ d) :
    ∃ x b : Nat, b ≤ 9 ∧ 10 * x + b ≤ 1000 ∧
      formatRate n d = toString x ++ "." ++ toString b ++ "%" := by
  by_cases hd : d = 0
  · subst hd
    exact ⟨0, 0, by norm_num, by norm_num, rfl⟩
  · have hd0 : 0 < d := Nat.pos_of_ne_zero hd
    have hq : 1000 * n / d ≤ 1000 := by
      calc 1000 * n / d ≤ 1000 * d / d :=
            Nat.div_le_div_right (Nat.mul_le_mul_left _ h)
        _ = 1000 := Nat.mul_div_cancel _ hd0
    set s : Nat :=
      (if d < 2 * (1000 * n % d) ∨ (2 * (1000 * n % d) = d ∧ (1000 * n / d) % 2 = 1)
       then 1000 * n / d + 1 else 1000 * n / d) with hs
    have h1000 : s ≤ 1000 := by
      rw [hs]
      split
      · rename_i hcond
        rcases Nat.lt_or_ge n d with hlt | hge
        · have hql : 1000 * n / d < 1000 := by
            rw [Nat.div_lt_iff_lt_mul hd0]
            omega
          omega
        · have hnd : n = d := le_antisymm h hge
          subst hnd
          have hr : 1000 * n % n = 0 := Nat.mul_mod_left 1000 n
          rw [hr] at hcond
          omega
      · exact hq
    refine ⟨s / 10, s % 10, ?_, ?_, ?_⟩
    · omega
    · have hdm : 10 * (s / 10) + s % 10 = s := Nat.div_add_mod s 10
      omega
    · show formatRate n d = _
      unfold formatRate
      rw [if_neg hd]

/-- Rate of the zero-match case. -/
theorem formatRate_zero (n : Nat) : formatRate n 0 = "0.0%" := rfl

/-- Arrest count of the advanced query, unfolded. -/
theorem advOf_arrest_count (st : HomicideDataMCP) (a : AdvArgs) :
    (advOf st a).arrest_count = (matchedRecords st a).countP (fun r => r.arrest) := rfl

/-- Domestic count of the advanced query, unfolded. -/
theorem advOf_domestic_count (st : HomicideDataMCP) (a : AdvArgs) :
    (advOf st a).domestic_count = (matchedRecords st a).countP (fun r => r.domestic) := rfl

/-- Total matches of the advanced query, unfolded. -/
theorem advOf_total (st : HomicideDataMCP) (a : AdvArgs) :
    (advOf st a).total_matches = (matchedRecords st a).length := rfl

/-- Arrest rate of the advanced query, unfolded. -/
theorem advOf_arrest_rate (st : HomicideDataMCP) (a : AdvArgs) :
    (advOf st a).arrest_rate =
      formatRate ((matchedRecords st a).countP (fun r => r.arrest))
        (matchedRecords st a).length := rfl

/-- Domestic rate of the advanced query, unfolded. -/
theorem advOf_domestic_rate (st : HomicideDataMCP) (a : AdvArgs) :
    (advOf st a).domestic_rate =
      formatRate ((matchedRecords st a).countP (fun r => r.domestic))
        (matchedRecords st a).length := rfl

/-- Claim C7: for every filter combination, the arrest and domestic rate
fields are one-decimal percentage strings whose numeric reading lies in
[0, 100] (an integer part x and a digit b with 10 * x + b at most 1000,
that is x + b / 10 at most 100 and at least 0), the arrest and domestic
counts are at most the total match count, division by zero never raises
(the embedding is total and the zero-match branch is taken explicitly), and
when the total is 0 both rates are the string "0.0%". -/
theorem claim_C7_rates (st : HomicideDataMCP) (a : AdvArgs) :
    (advOf st a).arrest_count ≤ (advOf st a).total_matches ∧
    (advOf st a).domestic_count ≤ (advOf st a).total_matches ∧
    (∃ x b : Nat, b ≤ 9 ∧ 10 * x + b ≤ 1000 ∧
      (advOf st a).arrest_rate = toString x ++ "." ++ toString b ++ "%") ∧
    (∃ x b : Nat, b ≤ 9 ∧ 10 * x + b ≤ 1000 ∧
      (advOf st a).domestic_rate = toString x ++ "." ++ toString b ++ "%") ∧
    ((advOf st a).total_matches = 0 →
      (advOf st a).arrest_rate = "0.0%" ∧ (advOf st a).domestic_rate = "0.0%") := by
  have ha : (matchedRecords st a).countP (fun r => r.arrest) ≤ (matchedRecords st a).length :=
    List.countP_le_length _
  have hd : (matchedRecords st a).countP (fun r => r.domestic) ≤ (matchedRecords st a).length :=
    List.countP_le_length _
  refine ⟨?_, ?_, ?_, ?_, ?_⟩
  · rw [advOf_arrest_count, advOf_total]; exact ha
  · rw [advOf_domestic_count, advOf_total]; exact hd
  · rw [advOf_arrest_rate]; exact formatRate_shape _ _ ha
  · rw [advOf_domestic_rate]; exact formatRate_shape _ _ hd
  · intro h0
    rw [advOf_total] at h0
    rw [advOf_arrest_rate, advOf_domestic_rate, h0]
    exact ⟨formatRate_zero _, formatRate_zero _⟩

/-- Claim C7 witness: on the empty dataset the total is zero and both rates
evaluate to "0.0%", via the zero-match branch of the theorem. -/
theorem claim_C7_witness :
    (advOf dbEmpty argsNone).arrest_rate = "0.0%" ∧
    (advOf dbEmpty argsNone).domestic_rate = "0.0%" :=
  (claim_C7_rates dbEmpty argsNone).2.2.2.2 rfl

/- Substring containment machinery for the formatter claims. -/

theorem startsWithList_weaken (p : List Char) : ∀ (l b : List Char),
    startsWithList l p = true → startsWithList (l ++ b) p = true := by
  induction p with
  | nil => intro l b _; cases l <;> simp [startsWithList]
  | cons pc pt ih =>
    intro l b h
    cases l with
    | nil => simp [startsWithList] at h
    | cons lc lt =>
      simp only [startsWithList, List.cons_append] at h ⊢
      split at h
      · rename_i heq
        rw [if_pos heq]
        exact ih lt b h
      · exact absurd h (by simp)

theorem startsWithList_self (p rest : List Char) : startsWithList (p ++ rest) p = true := by
  induction p generalizing rest with
  | nil => cases rest <;> simp [startsWithList]
  | cons pc pt ih => simp [startsWithList, ih]

theorem containsList_of_startsWith (s pat : List Char) (h : startsWithList s pat = true) :
    containsList s pat = true := by
  cases s with
  | nil => simp [containsList, firstIdx, firstIdxAux, h]
  | cons c t => simp [containsList, firstIdx, firstIdxAux, h]

theorem firstIdxAux_isSome (l pat : List Char) : ∀ (i j : Nat),
    (firstIdxAux l pat i).isSome = (firstIdxAux l pat j).isSome := by
  induction l with
  | nil => intro i j; simp only [firstIdxAux]; split <;> simp
  | cons c t ih =>
    intro i j
    simp only [firstIdxAux]
    split
    · simp
    · exact ih (i + 1) (j + 1)

theorem containsList_cons (c : Char) (t pat : List Char) (h : containsList t pat = true) :
    containsList (c :: t) pat = true := by
  simp only [containsList, firstIdx, firstIdxAux]
  split
  · simp
  · rw [firstIdxAux_isSome t pat 1 0]
    exact h

theorem containsList_append_left (a : List Char) (s pat : List Char)
    (h : containsList s pat = true) : containsList (a ++ s) pat = true := by
  induction a with
  | nil => simpa using h
  | cons c t ih => exact containsList_cons c (t ++ s) pat ih

theorem containsList_append_right (s b pat : List Char)
    (h : containsList s pat = true) : containsList (s ++ b) pat = true := by
  induction s with
  | nil =>
    have hp : pat = [] := by
      cases pat with
      | nil => rfl
      | cons pc pt => simp [containsList, firstIdx, firstIdxAux, startsWithList] at h
    subst hp
    exact containsList_of_startsWith _ _ (by cases b <;> simp [startsWithList])
  | cons c t ih =>
    simp only [containsList, firstIdx, firstIdxAux] at h
    by_cases hs : startsWithList (c :: t) pat = true
    · exact containsList_of_startsWith _ _ (by
        rw [List.cons_append]
        exact startsWithList_weaken pat (c :: t) b hs)
    · rw [if_neg (by simpa using hs)] at h
      rw [firstIdxAux_isSome t pat 1 0] at h
      exact containsList_cons c (t ++ b) pat (ih h)

-- string level
theorem strContains_append_left (a s p : String)
    (h : containsList s.toList p.toList = true) :
    containsList (a ++ s).toList p.toList = true := by
  have : (a ++ s).toList = a.toList ++ s.toList := by
    simp [String.toList, String.data_append]
  rw [this]
  exact containsList_append_left _ _ _ h

theorem strContains_append_right (s b p : String)
    (h : containsList s.toList p.toList = true) :
    containsList (s ++ b).toList p.toList = true := by
  have : (s ++ b).toList = s.toList ++ b.toList := by
    simp [String.toList, String.data_append]
  rw [this]
  exact containsList_append_right _ _ _ h

theorem strContains_self (p : String) : containsList p.toList p.toList = true := by
  apply containsList_of_startsWith
  have h : startsWithList (p.toList ++ []) p.toList = true := startsWithList_self p.toList []
  simpa using h

-- the answer-tail lemma
theorem strContains_tail_pair (X c : String) :
    containsList ((X ++ " had the most with ") ++ c).toList
      (hadTheMost ++ c).toList = true := by
  have h : (X ++ " had the most with ") ++ c = (X ++ " ") ++ (hadTheMost ++ c) := by
    apply String.ext
    show ((X ++ " had the most with ") ++ c).data = ((X ++ " ") ++ (hadTheMost ++ c)).data
    have hsplit : (" had the most with " : String).data =
        (" " : String).data ++ hadTheMost.data := rfl
    simp [String.data_append, hsplit, hadTheMost, List.append_assoc]
  rw [h]
  exact strContains_append_left _ _ _ (strContains_self _)

-- the formatter contains lemma
theorem formatAdvanced_contains_answer (r : AdvResult) (t : String)
    (data : List (String × Nat)) (top : String × Nat) (rest : List (String × Nat))
    (hpb : r.primary_breakdown = some (t, data))
    (hne : data.isEmpty = false)
    (hsd : sortByCountDesc data = top :: rest) :
    containsList (formatAdvanced r).toList (hadTheMost ++ toString top.2).toList = true := by
  unfold formatAdvanced
  simp only [hpb, hne, hsd]
  simp only [Bool.false_eq_true, if_false]
  apply strContains_append_right
  apply strContains_append_right
  apply strContains_append_left
  apply strContains_append_left
  apply strContains_append_right
  exact strContains_tail_pair _ _

theorem insertByCount_pairwise {α : Type} (x : α × Nat) (l : List (α × Nat))
    (h : l.Pairwise (fun p q => q.2 ≤ p.2)) :
    (insertByCount x l).Pairwise (fun p q => q.2 ≤ p.2) := by
  induction l with
  | nil => simp [insertByCount]
  | cons y ys ih =>
    rcases List.pairwise_cons.mp h with ⟨hy, hys⟩
    by_cases hle : y.2 ≤ x.2
    · rw [insertByCount, if_pos hle]
      refine List.pairwise_cons.mpr ⟨?_, h⟩
      intro z hz
      rcases List.mem_cons.mp hz with rfl | hz2
      · exact hle
      · exact le_trans (hy z hz2) hle
    · rw [insertByCount, if_neg hle]
      refine List.pairwise_cons.mpr ⟨?_, ih hys⟩
      intro z hz
      rcases (insertByCount_mem z x ys).mp hz with rfl | hz2
      · omega
      · exact hy z hz2

theorem sortByCountDesc_pairwise {α : Type} (l : List (α × Nat)) :
    (sortByCountDesc l).Pairwise (fun p q => q.2 ≤ p.2) := by
  induction l with
  | nil => simp [sortByCountDesc]
  | cons x t ih => exact insertByCount_pairwise x (sortByCountDesc t) ih

theorem sortByCountDesc_head_ge {α : Type} (l : List (α × Nat)) (top : α × Nat)
    (rest : List (α × Nat)) (h : sortByCountDesc l = top :: rest) :
    ∀ p ∈ l, p.2 ≤ top.2 := by
  intro p hp
  have hp2 : p ∈ sortByCountDesc l := (sortByCountDesc_mem p l).mpr hp
  rw [h] at hp2
  rcases List.mem_cons.mp hp2 with rfl | hp3
  · exact le_refl _
  · have hpw := sortByCountDesc_pairwise l
    rw [h] at hpw
    exact (List.pairwise_cons.mp hpw).1 p hp3

theorem sortByCountDesc_head_first_max {α : Type} :
    ∀ (l : List (α × Nat)) (top : α × Nat) (rest : List (α × Nat)),
      sortByCountDesc l = top :: rest →
      ∃ pre post, l = pre ++ top :: post ∧ ∀ p ∈ pre, p.2 < top.2 := by
  intro l
  induction l with
  | nil => intro top rest h; simp [sortByCountDesc] at h
  | cons x t ih =>
    intro top rest h
    rw [sortByCountDesc] at h
    rcases hs : sortByCountDesc t with _ | ⟨y, ys⟩
    · rw [hs] at h
      rw [insertByCount] at h
      injection h with h1 h2
      exact ⟨[], t, by simp [h1], by simp⟩
    · rw [hs] at h
      by_cases hle : y.2 ≤ x.2
      · rw [insertByCount, if_pos hle] at h
        injection h with h1 h2
        exact ⟨[], t, by simp [h1], by simp⟩
      · rw [insertByCount, if_neg hle] at h
        injection h with h1 h2
        rcases ih y ys hs with ⟨pre, post, hsplit, hlt⟩
        refine ⟨x :: pre, post, ?_, ?_⟩
        · rw [← h1, hsplit]
          rfl
        · intro p hp
          rcases List.mem_cons.mp hp with rfl | hp2
          · rw [← h1]
            omega
          · rw [← h1]
            exact hlt p hp2

/-- Claim C6 (amended): for every advanced query whose focused breakdown is
present with at least one entry (group_by recognized and at least one match
with a non-null grouping key), the breakdown rendered by the formatter is
sorted by count descending, its top entry has a count at least every entry
of the breakdown, that top entry is the first entry of the counting step
attaining the maximal count (first-seen tie-break: every earlier entry has a
strictly smaller count), and the formatted text contains the definitive
answer marker "had the most with " followed by the top count. -/
theorem claim_C6_group_by (st : HomicideDataMCP) (a : AdvArgs) (t : String)
    (data : List (String × Nat)) (top : String × Nat) (rest : List (String × Nat))
    (hpb : (advOf st a).primary_breakdown = some (t, data))
    (hsd : sortByCountDesc data = top :: rest) :
    (sortByCountDesc data).Pairwise (fun p q => q.2 ≤ p.2) ∧
    (∀ p ∈ data, p.2 ≤ top.2) ∧
    (∃ pre post, data = pre ++ top :: post ∧ ∀ p ∈ pre, p.2 < top.2) ∧
    containsList (format_tool_result (ToolResult.adv (advOf st a))).toList
      (hadTheMost ++ toString top.2).toList = true := by
  have hne : data.isEmpty = false := by
    cases data with
    | nil => simp [sortByCountDesc] at hsd
    | cons d ds => rfl
  refine ⟨sortByCountDesc_pairwise data, sortByCountDesc_head_ge data top rest hsd,
    sortByCountDesc_head_first_max data top rest hsd, ?_⟩
  show containsList (formatAdvanced (advOf st a)).toList _ = true
  exact formatAdvanced_contains_answer (advOf st a) t data top rest hpb hne hsd

set_option maxRecDepth 8192 in
/-- Claim C6 witness: the tie scenario of the specification (ward counts
7 then 12 at the tie count, 3 below), instantiating the amended theorem;
the formatter text contains "had the most with 3" for first-seen ward 7. -/
theorem claim_C6_witness :
    (sortByCountDesc c6data).Pairwise (fun p q => q.2 ≤ p.2) ∧
    (∀ p ∈ c6data, p.2 ≤ c6top.2) ∧
    (∃ pre post, c6data = pre ++ c6top :: post ∧ ∀ p ∈ pre, p.2 < c6top.2) ∧
    containsList (format_tool_result (ToolResult.adv (advOf db6 a6))).toList
      (hadTheMost ++ toString c6top.2).toList = true :=
  claim_C6_group_by db6 a6 "ward" c6data c6top c6rest rfl rfl

set_option maxRecDepth 8192 in
/-- Claim C6 (counterexample): a query with group_by set to the recognized
grouping ward and one matching record whose ward cell is null has an empty
focused breakdown, and the formatted text contains no "had the most"
answer: group_by set with at least one match does not suffice. -/
theorem claim_C6_counterexample :
    (advOf db6n a6).total_matches = 1 ∧
    a6.group_by = some "ward" ∧
    (advOf db6n a6).primary_breakdown = some ("ward", []) ∧
    containsList (format_tool_result (ToolResult.adv (advOf db6n a6))).toList
      hadTheMost.toList = false :=
  ⟨rfl, rfl, rfl, rfl⟩


/-- Claim C8: in every orchestrated turn in which the model signals a tool
call, (i) if call extraction fails the turn ends at once with the
diagnostic error as the final answer, and the outcome does not depend on the
second-stage generator (no second model call is made); (ii) if tool
execution yields an error, the turn ends at once with the formatted error,
again independent of the generator; (iii) the generator is consulted, on
the follow-up prompt, exactly when tool execution completed without error.
The name-key hypothesis in (ii) and (iii) excludes the nameless calls on
which the Python code raises KeyError in a trace print before executing. -/
theorem claim_C8_turn_termination :
    (∀ (q : String) (resp : LlamaResponse) (gen gen' : String → String)
       (ct : String → Json → ToolResult),
       resp.needs_tool_call = true →
       parse_tool_call resp.content.toList = none →
       handle_question_with_tools q resp gen ct =
         some ("❌ Could not parse tool call from response: " ++ resp.content) ∧
       handle_question_with_tools q resp gen ct = handle_question_with_tools q resp gen' ct) ∧
    (∀ (q : String) (resp : LlamaResponse) (gen gen' : String → String)
       (ct : String → Json → ToolResult) (tc : PyDict),
       resp.needs_tool_call = true →
       parse_tool_call resp.content.toList = some tc →
       (pyGet tc nameKey).isSome = true →
       (execute_tool_call ct tc).error.isSome = true →
       handle_question_with_tools q resp gen ct =
         some ((execute_tool_call ct tc).formatted_result) ∧
       handle_question_with_tools q resp gen ct = handle_question_with_tools q resp gen' ct) ∧
    (∀ (q : String) (resp : LlamaResponse) (gen : String → String)
       (ct : String → Json → ToolResult) (tc : PyDict),
       resp.needs_tool_call = true →
       parse_tool_call resp.content.toList = some tc →
       (pyGet tc nameKey).isSome = true →
       (execute_tool_call ct tc).error = none →
       handle_question_with_tools q resp gen ct =
         some (gen (followUpPrompt (execute_tool_call ct tc).formatted_result q))) := by
  refine ⟨?_, ?_, ?_⟩
  · intro q resp gen gen' ct hn hp
    constructor
    · unfold handle_question_with_tools
      rw [hn, hp]
      simp
    · unfold handle_question_with_tools
      rw [hn, hp]
  · intro q resp gen gen' ct tc hn hp hname herr
    rcases hx : pyGet tc nameKey with _ | v
    · rw [hx] at hname
      simp at hname
    · constructor
      · unfold handle_question_with_tools
        rw [hn, hp]
        simp only [hx]
        simp [herr]
      · unfold handle_question_with_tools
        rw [hn, hp]
        simp only [hx]
        simp [herr]
  · intro q resp gen ct tc hn hp hname herr
    rcases hx : pyGet tc nameKey with _ | v
    · rw [hx] at hname
      simp at hname
    · unfold handle_question_with_tools
      rw [hn, hp]
      simp only [hx]
      simp [herr]

set_option maxRecDepth 8192 in
/-- Claim C8 witness: the three turn outcomes at concrete responses — an
unparseable signal, an unknown tool, and a successful lookup. -/
theorem claim_C8_witness :
    handle_question_with_tools c8q respNoCall genA (call_tool db3) =
      some ("❌ Could not parse tool call from response: " ++ respNoCall.content) ∧
    handle_question_with_tools c8q respBogus genA (call_tool db3) =
      some ((execute_tool_call (call_tool db3) c8bogusTc).formatted_result) ∧
    handle_question_with_tools c8q respIucr genA (call_tool db3) =
      some (genA (followUpPrompt (execute_tool_call (call_tool db3) c8iucrTc).formatted_result c8q)) :=
  ⟨(claim_C8_turn_termination.1 c8q respNoCall genA genB (call_tool db3) rfl rfl).1,
   (claim_C8_turn_termination.2.1 c8q respBogus genA genB (call_tool db3) c8bogusTc rfl rfl rfl rfl).1,
   claim_C8_turn_termination.2.2 c8q respIucr genA (call_tool db3) c8iucrTc rfl rfl rfl rfl⟩


-- basic scan facts
theorem scanNoStop_nil (bc : Int) (q e : Bool) : scanNoStop bc q e [] = some (bc, q, e) := rfl

theorem scanNoStop_cons (bc : Int) (q e : Bool) (c : Char) (cs : List Char) :
    scanNoStop bc q e (c :: cs) =
      (scanStep (bc, q, e) c).bind (fun st => scanNoStop st.1 st.2.1 st.2.2 cs) := by
  simp only [scanNoStop, List.foldlM_cons]
  rfl

theorem scanNoStop_append (bc : Int) (q e : Bool) (xs ys : List Char) :
    scanNoStop bc q e (xs ++ ys) =
      (scanNoStop bc q e xs).bind (fun st => scanNoStop st.1 st.2.1 st.2.2 ys) := by
  simp only [scanNoStop, List.foldlM_append]
  rfl

-- scanStep values
theorem scanStep_esc (bc : Int) (q : Bool) (c : Char) :
    scanStep (bc, q, true) c = some (bc, q, false) := rfl

theorem scanStep_bslash (bc : Int) (q : Bool) :
    scanStep (bc, q, false) bslash = some (bc, q, true) := by
  unfold scanStep
  rw [if_neg (by simp), if_pos rfl]

theorem scanStep_dquote (bc : Int) (q : Bool) :
    scanStep (bc, q, false) dquote = some (bc, !q, false) := by
  unfold scanStep
  rw [if_neg (by simp), if_neg (by decide), if_pos rfl]

theorem scanStep_inq (bc : Int) (c : Char) (h1 : ¬c = bslash) (h2 : ¬c = dquote) :
    scanStep (bc, true, false) c = some (bc, true, false) := by
  unfold scanStep
  rw [if_neg (by simp), if_neg h1, if_neg h2, if_pos rfl]

theorem scanStep_lbrace (bc : Int) :
    scanStep (bc, false, false) lbrace = some (bc + 1, false, false) := by
  unfold scanStep
  rw [if_neg (by simp), if_neg (by decide), if_neg (by decide), if_neg (by simp),
    if_pos rfl]

theorem scanStep_rbrace (bc : Int) (h : ¬bc = 1) :
    scanStep (bc, false, false) rbrace = some (bc - 1, false, false) := by
  unfold scanStep
  rw [if_neg (by simp), if_neg (by decide), if_neg (by decide), if_neg (by simp),
    if_neg (by decide), if_pos rfl, if_neg h]

theorem scanStep_other (bc : Int) (c : Char) (h : notSpecial c = true) :
    scanStep (bc, false, false) c = some (bc, false, false) := by
  simp only [notSpecial, Bool.not_eq_true', Bool.or_eq_false_iff,
    decide_eq_false_iff_not] at h
  unfold scanStep
  rw [if_neg (by simp), if_neg h.1.1.1, if_neg h.1.1.2, if_neg (by simp),
    if_neg h.1.2, if_neg h.2]

theorem scan_cons_step (bc : Int) (q e : Bool) (c : Char) (bc2 : Int) (q2 e2 : Bool)
    (hs : scanStep (bc, q, e) c = some (bc2, q2, e2)) (cs : List Char) :
    scanNoStop bc q e (c :: cs) = scanNoStop bc2 q2 e2 cs := by
  rw [scanNoStop_cons, hs]
  rfl

-- findClose relations
theorem findClose_cons_of_step (bc : Int) (q e : Bool) (c : Char)
    (st' : Int × Bool × Bool) (h : scanStep (bc, q, e) c = some st') (rest : List Char) :
    findClose bc q e (c :: rest) = (findClose st'.1 st'.2.1 st'.2.2 rest).map (· + 1) := by
  unfold scanStep at h
  rw [findClose]
  by_cases he : e = true
  · rw [if_pos (by simpa using he)] at h
    injection h with h'
    subst h'
    rw [if_pos (by simpa using he)]
  · rw [if_neg (by simpa using he)] at h
    rw [if_neg (by simpa using he)]
    by_cases hb : c = bslash
    · rw [if_pos hb] at h
      injection h with h'
      subst h'
      rw [if_pos hb]
    · rw [if_neg hb] at h
      rw [if_neg hb]
      by_cases hq : c = dquote
      · rw [if_pos hq] at h
        injection h with h'
        subst h'
        rw [if_pos hq]
      · rw [if_neg hq] at h
        rw [if_neg hq]
        by_cases hin : q = true
        · rw [if_pos (by simpa using hin)] at h
          injection h with h'
          subst h'
          rw [if_pos (by simpa using hin)]
        · rw [if_neg (by simpa using hin)] at h
          rw [if_neg (by simpa using hin)]
          by_cases hl : c = lbrace
          · rw [if_pos hl] at h
            injection h with h'
            subst h'
            rw [if_pos hl]
          · rw [if_neg hl] at h
            rw [if_neg hl]
            by_cases hr : c = rbrace
            · rw [if_pos hr] at h
              by_cases h1 : bc = 1
              · rw [if_pos h1] at h
                exact absurd h (by simp)
              · rw [if_neg h1] at h
                injection h with h'
                subst h'
                rw [if_pos hr, if_neg h1]
            · rw [if_neg hr] at h
              injection h with h'
              subst h'
              rw [if_neg hr]

theorem findClose_of_scan (xs : List Char) : ∀ (bc : Int) (q e : Bool)
    (st' : Int × Bool × Bool), scanNoStop bc q e xs = some st' →
    ∀ ys, findClose bc q e (xs ++ ys) =
      (findClose st'.1 st'.2.1 st'.2.2 ys).map (· + xs.length) := by
  induction xs with
  | nil =>
    intro bc q e st' h ys
    rw [scanNoStop_nil] at h
    injection h with h'
    subst h'
    simp
  | cons c t ih =>
    intro bc q e st' h ys
    rw [scanNoStop_cons] at h
    rcases hstep : scanStep (bc, q, e) c with _ | st1
    · rw [hstep] at h
      simp at h
    · rw [hstep] at h
      simp only [Option.some_bind] at h
      rw [List.cons_append, findClose_cons_of_step bc q e c st1 hstep]
      rw [ih st1.1 st1.2.1 st1.2.2 st' h ys]
      cases findClose st'.1 st'.2.1 st'.2.2 ys with
      | none => simp
      | some n =>
        simp only [Option.map_some', List.length_cons, Option.some.injEq]
        omega

theorem findClose_rbrace_one (rest : List Char) :
    findClose 1 false false (rbrace :: rest) = some 1 := by
  rw [findClose]
  rw [if_neg (by simp), if_neg (by decide), if_neg (by decide), if_neg (by simp),
    if_neg (by decide), if_pos rfl, if_pos rfl]

-- neutrality combinators
theorem NeutralV_nil : NeutralV [] := by
  intro bc _
  exact scanNoStop_nil bc false false

theorem NeutralV_append (a b : List Char) (ha : NeutralV a) (hb : NeutralV b) :
    NeutralV (a ++ b) := by
  intro bc h
  rw [scanNoStop_append, ha bc h]
  exact hb bc h

theorem NeutralV_of_notSpecial (sp : List Char) (h : ∀ c ∈ sp, notSpecial c = true) :
    NeutralV sp := by
  induction sp with
  | nil => exact NeutralV_nil
  | cons c t ih =>
    intro bc hbc
    rw [scan_cons_step bc false false c bc false false
      (scanStep_other bc c (h c (List.mem_cons_self c t))) t]
    exact ih (fun d hd => h d (List.mem_cons_of_mem c hd)) bc hbc

theorem notSpecial_of_isWs (c : Char) (h : isWsChar c = true) : notSpecial c = true := by
  simp only [isWsChar, Bool.or_eq_true, decide_eq_true_eq] at h
  rcases h with (((h1 | h2) | h3) | h4)
  · subst h1; decide
  · subst h2; decide
  · subst h3; decide
  · subst h4; decide

theorem NeutralV_ws (w : List Char) (h : ∀ c ∈ w, isWsChar c = true) : NeutralV w :=
  NeutralV_of_notSpecial w (fun c hc => notSpecial_of_isWs c (h c hc))

theorem NeutralV_takeWhile_ws (cs : List Char) : NeutralV (cs.takeWhile isWsChar) :=
  NeutralV_ws _ (fun c hc => List.mem_takeWhile_imp hc)

theorem NeutralV_cons_notSpecial (c : Char) (sp : List Char) (h : notSpecial c = true)
    (hs : NeutralV sp) : NeutralV (c :: sp) := by
  intro bc hbc
  rw [scan_cons_step bc false false c bc false false (scanStep_other bc c h) sp]
  exact hs bc hbc

theorem NeutralV_string (spK : List Char) (h : QNeutral spK) : NeutralV (dquote :: spK) := by
  intro bc _
  rw [scan_cons_step bc false false dquote bc true false (scanStep_dquote bc false) spK]
  exact h bc

theorem QNeutral_append_of_neutral (a b : List Char)
    (ha : QNeutral a) (hb : NeutralV b) : ∀ bc, 1 ≤ bc →
      scanNoStop bc true false (a ++ b) = some (bc, false, false) := by
  intro bc h
  rw [scanNoStop_append, ha bc]
  exact hb bc h

-- string body spans
theorem QNeutral_close : QNeutral [dquote] := by
  intro bc
  rw [scan_cons_step bc true false dquote bc false false (scanStep_dquote bc true) []]
  exact scanNoStop_nil bc false false

theorem QNeutral_cons (c : Char) (sp : List Char) (h1 : ¬c = bslash) (h2 : ¬c = dquote)
    (h : QNeutral sp) : QNeutral (c :: sp) := by
  intro bc
  rw [scan_cons_step bc true false c bc true false (scanStep_inq bc c h1 h2) sp]
  exact h bc

theorem QNeutral_esc_pair (e2 : Char) (sp : List Char) (h : QNeutral sp) :
    QNeutral (bslash :: e2 :: sp) := by
  intro bc
  rw [scan_cons_step bc true false bslash bc true true (scanStep_bslash bc true) (e2 :: sp)]
  rw [scan_cons_step bc true true e2 bc true false (scanStep_esc bc true e2) sp]
  exact h bc

theorem hexVal_ne_bslash (c : Char) (n : Nat) (h : hexVal c = some n) : ¬c = bslash := by
  intro he
  subst he
  have hn : hexVal bslash = none := by decide
  rw [hn] at h
  exact Option.noConfusion h

theorem hexVal_ne_dquote (c : Char) (n : Nat) (h : hexVal c = some n) : ¬c = dquote := by
  intro he
  subst he
  have hn : hexVal dquote = none := by decide
  rw [hn] at h
  exact Option.noConfusion h

theorem stringBody_span : ∀ (f : Nat) (cs sd rest : List Char),
    parseStringBody f cs = some (sd, rest) →
    ∃ sp, cs = sp ++ rest ∧ QNeutral sp := by
  intro f
  induction f with
  | zero =>
    intro cs sd rest h
    simp [parseStringBody] at h
  | succ f ih =>
    intro cs sd rest h
    cases cs with
    | nil => simp [parseStringBody] at h
    | cons c cs1 =>
      simp only [parseStringBody] at h
      by_cases hq : c = dquote
      · rw [if_pos hq] at h
        simp only [Option.some.injEq, Prod.mk.injEq] at h
        refine ⟨[c], ?_, ?_⟩
        · rw [h.2]
          rfl
        · rw [hq]
          exact QNeutral_close
      · rw [if_neg hq] at h
        by_cases hb : c = bslash
        · rw [if_pos hb] at h
          cases cs1 with
          | nil => simp at h
          | cons e2 cs2 =>
            dsimp only at h
            by_cases hu : e2 = 'u'
            · rw [if_pos hu] at h
              match cs2, h with
              | h1 :: h2 :: h3 :: h4 :: cs3, h =>
                dsimp only at h
                rcases hv1 : hexVal h1 with _ | a <;> rw [hv1] at h <;> (try dsimp only at h)
                · simp at h
                rcases hv2 : hexVal h2 with _ | b <;> rw [hv2] at h <;> (try dsimp only at h)
                · simp at h
                rcases hv3 : hexVal h3 with _ | a3 <;> rw [hv3] at h <;> (try dsimp only at h)
                · simp at h
                rcases hv4 : hexVal h4 with _ | a4 <;> rw [hv4] at h <;> (try dsimp only at h)
                · simp at h
                rcases hr : parseStringBody f cs3 with _ | r <;> rw [hr] at h
                · simp at h
                · simp only [Option.map_some', Option.some.injEq, Prod.mk.injEq] at h
                  rcases ih cs3 r.1 r.2 (by rw [hr]) with ⟨sp', hsp', hq'⟩
                  refine ⟨bslash :: 'u' :: h1 :: h2 :: h3 :: h4 :: [] ++ sp', ?_, ?_⟩
                  · rw [hb, ← h.2, hsp']
                    simp [hu]
                  · intro bc
                    rw [List.cons_append,
                      scan_cons_step bc true false bslash bc true true (scanStep_bslash bc true) _]
                    rw [List.cons_append,
                      scan_cons_step bc true true _ bc true false (scanStep_esc bc true _) _]
                    rw [List.cons_append,
                      scan_cons_step bc true false h1 bc true false
                        (scanStep_inq bc h1 (hexVal_ne_bslash h1 a hv1) (hexVal_ne_dquote h1 a hv1)) _]
                    rw [List.cons_append,
                      scan_cons_step bc true false h2 bc true false
                        (scanStep_inq bc h2 (hexVal_ne_bslash h2 b hv2) (hexVal_ne_dquote h2 b hv2)) _]
                    rw [List.cons_append,
                      scan_cons_step bc true false h3 bc true false
                        (scanStep_inq bc h3 (hexVal_ne_bslash h3 a3 hv3) (hexVal_ne_dquote h3 a3 hv3)) _]
                    rw [List.cons_append,
                      scan_cons_step bc true false h4 bc true false
                        (scanStep_inq bc h4 (hexVal_ne_bslash h4 a4 hv4) (hexVal_ne_dquote h4 a4 hv4)) _]
                    simp only [List.nil_append]
                    exact hq' bc
              | [], h => simp at h
              | [h1], h => simp at h
              | [h1, h2], h => simp at h
              | [h1, h2, h3], h => simp at h
            · rw [if_neg hu] at h
              rcases he : escChar e2 with _ | ec <;> rw [he] at h
              · simp at h
              · rcases hr : parseStringBody f cs2 with _ | r <;> rw [hr] at h
                · simp at h
                · simp only [Option.map_some', Option.some.injEq, Prod.mk.injEq] at h
                  rcases ih cs2 r.1 r.2 (by rw [hr]) with ⟨sp', hsp', hq'⟩
                  refine ⟨bslash :: e2 :: sp', ?_, ?_⟩
                  · rw [hb, ← h.2, hsp']
                    simp
                  · exact QNeutral_esc_pair e2 sp' hq'
        · rw [if_neg hb] at h
          by_cases hc32 : c.toNat < 32
          · rw [if_pos hc32] at h
            simp at h
          · rw [if_neg hc32] at h
            rcases hr : parseStringBody f cs1 with _ | r <;> rw [hr] at h
            · simp at h
            · simp only [Option.map_some', Option.some.injEq, Prod.mk.injEq] at h
              rcases ih cs1 r.1 r.2 (by rw [hr]) with ⟨sp', hsp', hq'⟩
              refine ⟨c :: sp', ?_, ?_⟩
              · rw [← h.2, hsp']
                simp
              · exact QNeutral_cons c sp' hb hq hq'

-- number and keyword spans
theorem notSpecial_of_isDigit (c : Char) (h : c.isDigit = true) : notSpecial c = true := by
  simp only [notSpecial, Bool.not_eq_true', Bool.or_eq_false_iff, decide_eq_false_iff_not]
  refine ⟨⟨⟨?_, ?_⟩, ?_⟩, ?_⟩ <;> intro he <;> rw [he] at h <;> exact absurd h (by decide)

theorem parseFrac_span (cs fp rest : List Char) (h : parseFrac cs = some (fp, rest)) :
    cs = fp ++ rest ∧ ∀ c ∈ fp, notSpecial c = true := by
  cases cs with
  | nil =>
    simp only [parseFrac, Option.some.injEq, Prod.mk.injEq] at h
    rw [← h.1, ← h.2]
    exact ⟨rfl, by simp⟩
  | cons c rest0 =>
    simp only [parseFrac] at h
    by_cases hd : c = '.'
    · rw [if_pos hd] at h
      try dsimp only at h
      by_cases hds : (rest0.takeWhile Char.isDigit).isEmpty = true
      · rw [if_pos hds] at h
        exact absurd h (by simp)
      · rw [if_neg hds] at h
        simp only [Option.some.injEq, Prod.mk.injEq] at h
        rw [← h.1, ← h.2]
        constructor
        · rw [List.cons_append, List.takeWhile_append_dropWhile]
        · intro x hx
          rcases List.mem_cons.mp hx with rfl | hx2
          · rw [hd]; decide
          · exact notSpecial_of_isDigit x (List.mem_takeWhile_imp hx2)
    · rw [if_neg hd] at h
      simp only [Option.some.injEq, Prod.mk.injEq] at h
      rw [← h.1, ← h.2]
      exact ⟨rfl, by simp⟩

theorem parseExp_span (cs fp rest : List Char) (h : parseExp cs = some (fp, rest)) :
    cs = fp ++ rest ∧ ∀ c ∈ fp, notSpecial c = true := by
  cases cs with
  | nil =>
    simp only [parseExp, Option.some.injEq, Prod.mk.injEq] at h
    rw [← h.1, ← h.2]
    exact ⟨rfl, by simp⟩
  | cons c rest0 =>
    simp only [parseExp] at h
    by_cases he : c = 'e' ∨ c = 'E'
    · rw [if_pos he] at h
      try dsimp only at h
      rcases rest0 with _ | ⟨s, r2⟩
      · try dsimp only at h
        by_cases hds : (List.takeWhile Char.isDigit ([] : List Char)).isEmpty = true
        · rw [if_pos hds] at h
          exact absurd h (by simp)
        · exact (hds (by decide)).elim
      · try dsimp only at h
        by_cases hs : s = '+' ∨ s = '-'
        · rw [if_pos hs, if_pos hs] at h
          by_cases hds : (r2.takeWhile Char.isDigit).isEmpty = true
          · rw [if_pos hds] at h
            exact absurd h (by simp)
          · rw [if_neg hds] at h
            simp only [Option.some.injEq, Prod.mk.injEq] at h
            rw [← h.1, ← h.2]
            constructor
            · simp only [List.cons_append, List.append_assoc, List.singleton_append]
              rw [List.takeWhile_append_dropWhile]
              simp
            · intro x hx
              rcases List.mem_cons.mp hx with rfl | hx2
              · rcases he with rfl | rfl <;> decide
              · rcases List.mem_append.mp hx2 with hx3 | hx4
                · rcases List.mem_singleton.mp hx3 with rfl
                  rcases hs with rfl | rfl <;> decide
                · exact notSpecial_of_isDigit x (List.mem_takeWhile_imp hx4)
        · rw [if_neg hs, if_neg hs] at h
          by_cases hds : ((s :: r2).takeWhile Char.isDigit).isEmpty = true
          · rw [if_pos hds] at h
            exact absurd h (by simp)
          · rw [if_neg hds] at h
            simp only [Option.some.injEq, Prod.mk.injEq] at h
            rw [← h.1, ← h.2]
            constructor
            · try simp only [List.cons_append, List.nil_append]
              rw [List.takeWhile_append_dropWhile]
            · intro x hx
              rcases List.mem_cons.mp hx with rfl | hx2
              · rcases he with rfl | rfl <;> decide
              · try simp only [List.nil_append] at hx2
                exact notSpecial_of_isDigit x (List.mem_takeWhile_imp hx2)
    · rw [if_neg he] at h
      simp only [Option.some.injEq, Prod.mk.injEq] at h
      rw [← h.1, ← h.2]
      exact ⟨rfl, by simp⟩

theorem parseNumber_span (cs lex rest : List Char) (h : parseNumber cs = some (lex, rest)) :
    cs = lex ++ rest ∧ ∀ c ∈ lex, notSpecial c = true := by
  unfold parseNumber at h
  rcases cs with _ | ⟨c, cs0⟩
  · simp at h
  · dsimp only at h
    by_cases hm : c = '-'
    · rw [if_pos hm, if_pos hm] at h
      rcases hfr : parseFrac (cs0.dropWhile Char.isDigit) with _ | ⟨fp, fcs⟩ <;>
        rw [hfr] at h <;> try dsimp only at h
      · simp at h
      rcases hex : parseExp fcs with _ | ⟨ep, ecs⟩ <;>
        rw [hex] at h <;> try dsimp only at h
      · simp at h
      by_cases hip : (cs0.takeWhile Char.isDigit).isEmpty = true
      · rw [if_pos hip] at h
        exact absurd h (by simp)
      · rw [if_neg hip] at h
        by_cases hz : 2 ≤ (cs0.takeWhile Char.isDigit).length ∧
            (cs0.takeWhile Char.isDigit).head? = some (Char.ofNat 48)
        · rw [if_pos hz] at h
          exact absurd h (by simp)
        · rw [if_neg hz] at h
          simp only [Option.some.injEq, Prod.mk.injEq] at h
          rcases parseFrac_span _ _ _ hfr with ⟨hfr1, hfr2⟩
          rcases parseExp_span _ _ _ hex with ⟨hex1, hex2⟩
          rw [← h.1, ← h.2]
          constructor
          · rw [hm]
            simp only [List.cons_append, List.append_assoc, List.singleton_append,
              List.nil_append]
            rw [← hex1, ← hfr1, List.takeWhile_append_dropWhile]
          · intro x hx
            simp only [List.mem_append, List.mem_singleton, List.mem_cons,
              List.not_mem_nil, or_false] at hx
            rcases hx with ((rfl | hx2) | hx3) | hx4
            · rw [hm]; decide
            · exact notSpecial_of_isDigit x (List.mem_takeWhile_imp hx2)
            · exact hfr2 x hx3
            · exact hex2 x hx4
    · rw [if_neg hm, if_neg hm] at h
      rcases hfr : parseFrac ((c :: cs0).dropWhile Char.isDigit) with _ | ⟨fp, fcs⟩ <;>
        rw [hfr] at h <;> try dsimp only at h
      · simp at h
      rcases hex : parseExp fcs with _ | ⟨ep, ecs⟩ <;>
        rw [hex] at h <;> try dsimp only at h
      · simp at h
      by_cases hip : ((c :: cs0).takeWhile Char.isDigit).isEmpty = true
      · rw [if_pos hip] at h
        exact absurd h (by simp)
      · rw [if_neg hip] at h
        by_cases hz : 2 ≤ ((c :: cs0).takeWhile Char.isDigit).length ∧
            ((c :: cs0).takeWhile Char.isDigit).head? = some (Char.ofNat 48)
        · rw [if_pos hz] at h
          exact absurd h (by simp)
        · rw [if_neg hz] at h
          simp only [Option.some.injEq, Prod.mk.injEq] at h
          rcases parseFrac_span _ _ _ hfr with ⟨hfr1, hfr2⟩
          rcases parseExp_span _ _ _ hex with ⟨hex1, hex2⟩
          rw [← h.1, ← h.2]
          constructor
          · simp only [List.nil_append, List.append_assoc]
            rw [← hex1, ← hfr1, List.takeWhile_append_dropWhile]
          · intro x hx
            simp only [List.nil_append, List.mem_append] at hx
            rcases hx with (hx2 | hx3) | hx4
            · exact notSpecial_of_isDigit x (List.mem_takeWhile_imp hx2)
            · exact hfr2 x hx3
            · exact hex2 x hx4

theorem startsWith_decomp (p : List Char) : ∀ (cs : List Char),
    startsWithList cs p = true → cs = p ++ cs.drop p.length := by
  induction p with
  | nil => intro cs _; simp
  | cons pc pt ih =>
    intro cs h
    cases cs with
    | nil => simp [startsWithList] at h
    | cons c ct =>
      simp only [startsWithList] at h
      by_cases he : c = pc
      · rw [if_pos he] at h
        rw [List.cons_append, List.length_cons, List.drop_succ_cons]
        rw [he, ← ih ct h]
      · rw [if_neg he] at h
        exact absurd h (by simp)

-- composite neutrality shapes
theorem ws_split (cs : List Char) :
    cs = cs.takeWhile isWsChar ++ cs.dropWhile isWsChar :=
  (List.takeWhile_append_dropWhile isWsChar cs).symm

theorem ws_decomp2 (cs tail : List Char) (h : cs.dropWhile isWsChar = tail) :
    ∃ w, cs = w ++ tail ∧ NeutralV w := by
  refine ⟨cs.takeWhile isWsChar, ?_, NeutralV_takeWhile_ws cs⟩
  rw [← h]
  exact ws_split cs

theorem NeutralV_obj (w mid : List Char) (hw : NeutralV w) (hm : NeutralV mid) :
    NeutralV (lbrace :: (w ++ (mid ++ [rbrace]))) := by
  intro bc hbc
  rw [scan_cons_step bc false false lbrace (bc + 1) false false (scanStep_lbrace bc) _]
  rw [scanNoStop_append, hw (bc + 1) (by omega)]
  simp only [Option.some_bind]
  rw [scanNoStop_append, hm (bc + 1) (by omega)]
  simp only [Option.some_bind]
  have hstep : scanStep (bc + 1, false, false) rbrace = some (bc, false, false) := by
    rw [scanStep_rbrace (bc + 1) (by omega)]
    have hb1 : bc + 1 - 1 = bc := by omega
    rw [hb1]
  rw [scan_cons_step (bc + 1) false false rbrace bc false false hstep []]
  exact scanNoStop_nil bc false false

theorem NeutralV_key_then (spK rest1 : List Char) (hk : QNeutral spK)
    (hr : NeutralV rest1) : NeutralV (dquote :: (spK ++ rest1)) := by
  intro bc hbc
  rw [scan_cons_step bc false false dquote bc true false (scanStep_dquote bc false) _]
  exact QNeutral_append_of_neutral spK rest1 hk hr bc hbc

theorem parseP_span : ∀ (f : Nat) (m : PMode) (cs : List Char) (r : PRes) (rest : List Char),
    parseP f m cs = some (r, rest) →
    (match m with
     | PMode.value => ∃ sp, cs = sp ++ rest ∧ NeutralV sp
     | PMode.members _ => ∃ sp, cs = sp ++ rbrace :: rest ∧ NeutralV sp
     | PMode.elements _ => ∃ sp, cs = sp ++ rest ∧ NeutralV sp) := by
  intro f
  induction f with
  | zero =>
    intro m cs r rest h
    simp [parseP] at h
  | succ f ih =>
    intro m cs r rest h
    cases m with
    | value =>
      cases cs with
      | nil => simp [parseP] at h
      | cons c cs1 =>
        simp only [parseP] at h
        by_cases hq : c = dquote
        · rw [if_pos hq] at h
          rcases hsb : parseStringBody (cs1.length + 1) cs1 with _ | ⟨sd, rs⟩ <;>
            rw [hsb] at h
          · simp at h
          · simp only [Option.map_some', Option.some.injEq, Prod.mk.injEq] at h
            rcases stringBody_span _ _ _ _ hsb with ⟨spK, hspK, hqn⟩
            refine ⟨dquote :: spK, ?_, NeutralV_string spK hqn⟩
            rw [hq, hspK, ← h.2]
            rfl
        · rw [if_neg hq] at h
          by_cases hl : c = lbrace
          · rw [if_pos hl] at h
            rcases hcs2 : cs1.dropWhile isWsChar with _ | ⟨d, cs3⟩ <;> rw [hcs2] at h
            · simp at h
            · obtain ⟨w1, hA, hnw1⟩ := ws_decomp2 cs1 _ hcs2
              try dsimp only at h
              by_cases hd : d = rbrace
              · rw [if_pos hd] at h
                simp only [Option.some.injEq, Prod.mk.injEq] at h
                refine ⟨lbrace :: (w1 ++ ([] ++ [rbrace])), ?_, ?_⟩
                · rw [hl, ← h.2, hA, hd]
                  simp
                · exact NeutralV_obj _ _ hnw1 NeutralV_nil
              · rw [if_neg hd] at h
                rcases hm2 : parseP f (PMode.members []) (d :: cs3) with _ | ⟨pr, rest2⟩ <;>
                  rw [hm2] at h
                · simp at h
                · cases pr with
                  | val v => simp at h
                  | elems xs => simp at h
                  | mem kvs =>
                    simp only [Option.some.injEq, Prod.mk.injEq] at h
                    have hIH := ih (PMode.members []) (d :: cs3) (PRes.mem kvs) rest2 hm2
                    rcases hIH with ⟨spM, hspM, hnM⟩
                    refine ⟨lbrace :: (w1 ++ (spM ++ [rbrace])), ?_, ?_⟩
                    · rw [hl, ← h.2, hA, hspM]
                      simp
                    · exact NeutralV_obj _ _ hnw1 hnM
          · rw [if_neg hl] at h
            by_cases hk : c = '['
            · rw [if_pos hk] at h
              rcases hcs2 : cs1.dropWhile isWsChar with _ | ⟨d, cs3⟩ <;> rw [hcs2] at h
              · simp at h
              · obtain ⟨w1, hA, hnw1⟩ := ws_decomp2 cs1 _ hcs2
                try dsimp only at h
                by_cases hd : d = ']'
                · rw [if_pos hd] at h
                  simp only [Option.some.injEq, Prod.mk.injEq] at h
                  refine ⟨'[' :: (w1 ++ [']']), ?_, ?_⟩
                  · rw [hk, ← h.2, hA, hd]
                    simp
                  · exact NeutralV_cons_notSpecial '[' _ (by decide)
                      (NeutralV_append _ _ hnw1 (NeutralV_of_notSpecial _ (by decide)))
                · rw [if_neg hd] at h
                  rcases hm2 : parseP f (PMode.elements []) (d :: cs3) with _ | ⟨pr, rest2⟩ <;>
                    rw [hm2] at h
                  · simp at h
                  · cases pr with
                    | val v => simp at h
                    | mem kvs => simp at h
                    | elems xs =>
                      simp only [Option.some.injEq, Prod.mk.injEq] at h
                      have hIH := ih (PMode.elements []) (d :: cs3) (PRes.elems xs) rest2 hm2
                      rcases hIH with ⟨spE, hspE, hnE⟩
                      refine ⟨'[' :: (w1 ++ spE), ?_, ?_⟩
                      · rw [hk, ← h.2, hA, hspE]
                        simp
                      · exact NeutralV_cons_notSpecial '[' _ (by decide)
                          (NeutralV_append _ _ hnw1 hnE)
            · rw [if_neg hk] at h
              by_cases hT : startsWithList (c :: cs1) trueL = true
              · rw [if_pos hT] at h
                simp only [Option.some.injEq, Prod.mk.injEq] at h
                refine ⟨trueL, ?_, NeutralV_of_notSpecial _ (by decide)⟩
                rw [← h.2]
                exact startsWith_decomp trueL (c :: cs1) hT
              · rw [if_neg hT] at h
                by_cases hF : startsWithList (c :: cs1) falseL = true
                · rw [if_pos hF] at h
                  simp only [Option.some.injEq, Prod.mk.injEq] at h
                  refine ⟨falseL, ?_, NeutralV_of_notSpecial _ (by decide)⟩
                  rw [← h.2]
                  exact startsWith_decomp falseL (c :: cs1) hF
                · rw [if_neg hF] at h
                  by_cases hN : startsWithList (c :: cs1) nullL = true
                  · rw [if_pos hN] at h
                    simp only [Option.some.injEq, Prod.mk.injEq] at h
                    refine ⟨nullL, ?_, NeutralV_of_notSpecial _ (by decide)⟩
                    rw [← h.2]
                    exact startsWith_decomp nullL (c :: cs1) hN
                  · rw [if_neg hN] at h
                    rcases hn : parseNumber (c :: cs1) with _ | ⟨lex, rs⟩ <;> rw [hn] at h
                    · simp at h
                    · simp only [Option.some.injEq, Prod.mk.injEq] at h
                      rcases parseNumber_span _ _ _ hn with ⟨hlex, hns⟩
                      refine ⟨lex, ?_, NeutralV_of_notSpecial _ hns⟩
                      rw [← h.2]
                      exact hlex
    | members acc =>
      cases cs with
      | nil => simp [parseP] at h
      | cons c cs1 =>
        simp only [parseP] at h
        by_cases hq : c = dquote
        · rw [if_pos hq] at h
          rcases hsb : parseStringBody (cs1.length + 1) cs1 with _ | ⟨k, cs2⟩ <;>
            rw [hsb] at h
          · simp at h
          · try dsimp only at h
            rcases stringBody_span _ _ _ _ hsb with ⟨spK, hspK, hqn⟩
            rcases hcs3 : cs2.dropWhile isWsChar with _ | ⟨d, cs4⟩ <;> rw [hcs3] at h
            · simp at h
            · obtain ⟨wA, hA, hnA⟩ := ws_decomp2 cs2 _ hcs3
              try dsimp only at h
              by_cases hcolon : d = ':'
              · rw [if_pos hcolon] at h
                rcases hv : parseP f PMode.value (cs4.dropWhile isWsChar) with _ | ⟨pv, cs6⟩ <;>
                  rw [hv] at h
                · simp at h
                · cases pv with
                  | mem kvs => simp at h
                  | elems xs => simp at h
                  | val v =>
                    try dsimp only at h
                    have hIHv := ih PMode.value (cs4.dropWhile isWsChar) (PRes.val v) cs6 hv
                    rcases hIHv with ⟨spV, hspV, hnV⟩
                    obtain ⟨wB, hB, hnB⟩ := ws_decomp2 cs4 _ hspV
                    rcases hcs7 : cs6.dropWhile isWsChar with _ | ⟨e, cs8⟩ <;> rw [hcs7] at h
                    · simp at h
                    · obtain ⟨wC, hC, hnC⟩ := ws_decomp2 cs6 _ hcs7
                      try dsimp only at h
                      by_cases hcomma : e = ','
                      · rw [if_pos hcomma] at h
                        have hIHm := ih (PMode.members (pyInsert acc (String.mk k) v))
                          (cs8.dropWhile isWsChar) r rest h
                        rcases hIHm with ⟨spM2, hspM2, hnM2⟩
                        obtain ⟨wD, hD, hnD⟩ := ws_decomp2 cs8 _ hspM2
                        refine ⟨dquote :: (spK ++ (wA ++ (':' :: (wB ++ (spV ++ (wC ++ (',' ::
                          (wD ++ spM2)))))))), ?_, ?_⟩
                        · rw [hq, hspK, hA, hcolon, hB, hC, hcomma, hD]
                          simp
                        · refine NeutralV_key_then _ _ hqn ?_
                          refine NeutralV_append _ _ hnA ?_
                          refine NeutralV_cons_notSpecial ':' _ (by decide) ?_
                          refine NeutralV_append _ _ hnB ?_
                          refine NeutralV_append _ _ hnV ?_
                          refine NeutralV_append _ _ hnC ?_
                          refine NeutralV_cons_notSpecial ',' _ (by decide) ?_
                          exact NeutralV_append _ _ hnD hnM2
                      · rw [if_neg hcomma] at h
                        by_cases hrb : e = rbrace
                        · rw [if_pos hrb] at h
                          simp only [Option.some.injEq, Prod.mk.injEq] at h
                          refine ⟨dquote :: (spK ++ (wA ++ (':' :: (wB ++ (spV ++ wC))))),
                            ?_, ?_⟩
                          · rw [hq, hspK, hA, hcolon, hB, hC, hrb, ← h.2]
                            simp
                          · refine NeutralV_key_then _ _ hqn ?_
                            refine NeutralV_append _ _ hnA ?_
                            refine NeutralV_cons_notSpecial ':' _ (by decide) ?_
                            refine NeutralV_append _ _ hnB ?_
                            exact NeutralV_append _ _ hnV hnC
                        · rw [if_neg hrb] at h
                          simp at h
              · rw [if_neg hcolon] at h
                simp at h
        · rw [if_neg hq] at h
          simp at h
    | elements acc =>
      simp only [parseP] at h
      rcases hv : parseP f PMode.value cs with _ | ⟨pv, cs2⟩ <;> rw [hv] at h
      · simp at h
      · cases pv with
        | mem kvs => simp at h
        | elems xs => simp at h
        | val v =>
          try dsimp only at h
          have hIHv := ih PMode.value cs (PRes.val v) cs2 hv
          rcases hIHv with ⟨spV, hspV, hnV⟩
          rcases hcs3 : cs2.dropWhile isWsChar with _ | ⟨e, cs4⟩ <;> rw [hcs3] at h
          · simp at h
          · obtain ⟨wA, hA, hnA⟩ := ws_decomp2 cs2 _ hcs3
            try dsimp only at h
            by_cases hcomma : e = ','
            · rw [if_pos hcomma] at h
              have hIHe := ih (PMode.elements (acc ++ [v])) (cs4.dropWhile isWsChar) r rest h
              rcases hIHe with ⟨spE2, hspE2, hnE2⟩
              obtain ⟨wB, hB, hnB⟩ := ws_decomp2 cs4 _ hspE2
              refine ⟨spV ++ (wA ++ (',' :: (wB ++ spE2))), ?_, ?_⟩
              · rw [hspV, hA, hcomma, hB]
                simp
              · exact NeutralV_append _ _ hnV (NeutralV_append _ _ hnA
                  (NeutralV_cons_notSpecial ',' _ (by decide)
                    (NeutralV_append _ _ hnB hnE2)))
            · rw [if_neg hcomma] at h
              by_cases hrb : e = ']'
              · rw [if_pos hrb] at h
                simp only [Option.some.injEq, Prod.mk.injEq] at h
                refine ⟨spV ++ (wA ++ [']']), ?_, ?_⟩
                · rw [hspV, hA, hrb, ← h.2]
                  simp
                · exact NeutralV_append _ _ hnV (NeutralV_append _ _ hnA
                    (NeutralV_of_notSpecial _ (by decide)))
              · rw [if_neg hrb] at h
                simp at h

-- shape of a parsed top-level object
theorem parseP_obj_shape (f : Nat) (obj : List Char) (kvs : PyDict) (rest : List Char)
    (h : parseP f PMode.value obj = some (PRes.val (Json.jobj kvs), rest)) :
    ∃ w mid, obj = (lbrace :: (w ++ (mid ++ [rbrace]))) ++ rest ∧
      NeutralV w ∧ NeutralV mid := by
  cases f with
  | zero => simp [parseP] at h
  | succ f =>
    cases obj with
    | nil => simp [parseP] at h
    | cons c cs1 =>
      simp only [parseP] at h
      by_cases hq : c = dquote
      · rw [if_pos hq] at h
        rcases hsb : parseStringBody (cs1.length + 1) cs1 with _ | ⟨sd, rs⟩ <;> rw [hsb] at h <;>
          simp at h
      · rw [if_neg hq] at h
        by_cases hl : c = lbrace
        · rw [if_pos hl] at h
          rcases hcs2 : cs1.dropWhile isWsChar with _ | ⟨d, cs3⟩ <;> rw [hcs2] at h
          · simp at h
          · obtain ⟨w1, hA, hnw1⟩ := ws_decomp2 cs1 _ hcs2
            try dsimp only at h
            by_cases hd : d = rbrace
            · rw [if_pos hd] at h
              simp only [Option.some.injEq, Prod.mk.injEq, PRes.val.injEq,
                Json.jobj.injEq] at h
              refine ⟨w1, [], ?_, hnw1, NeutralV_nil⟩
              rw [hl, hA, hd, ← h.2]
              simp
            · rw [if_neg hd] at h
              rcases hm2 : parseP f (PMode.members []) (d :: cs3) with _ | ⟨pr, rest2⟩ <;>
                rw [hm2] at h
              · simp at h
              · cases pr with
                | val v => simp at h
                | elems xs => simp at h
                | mem kvs2 =>
                  simp only [Option.some.injEq, Prod.mk.injEq, PRes.val.injEq,
                    Json.jobj.injEq] at h
                  have hsp := parseP_span f (PMode.members []) (d :: cs3) (PRes.mem kvs2)
                    rest2 hm2
                  rcases hsp with ⟨spM, hspM, hnM⟩
                  refine ⟨w1, spM, ?_, hnw1, hnM⟩
                  rw [hl, hA, hspM, ← h.2]
                  simp
        · rw [if_neg hl] at h
          by_cases hk : c = '['
          · rw [if_pos hk] at h
            rcases hcs2 : cs1.dropWhile isWsChar with _ | ⟨d, cs3⟩ <;> rw [hcs2] at h
            · simp at h
            · try dsimp only at h
              by_cases hd : d = ']'
              · rw [if_pos hd] at h
                simp at h
              · rw [if_neg hd] at h
                rcases hm2 : parseP f (PMode.elements []) (d :: cs3) with _ | ⟨pr, rest2⟩ <;>
                  rw [hm2] at h
                · simp at h
                · cases pr <;> simp at h
          · rw [if_neg hk] at h
            by_cases hT : startsWithList (c :: cs1) trueL = true
            · rw [if_pos hT] at h
              simp at h
            · rw [if_neg hT] at h
              by_cases hF : startsWithList (c :: cs1) falseL = true
              · rw [if_pos hF] at h
                simp at h
              · rw [if_neg hF] at h
                by_cases hN : startsWithList (c :: cs1) nullL = true
                · rw [if_pos hN] at h
                  simp at h
                · rw [if_neg hN] at h
                  rcases hn : parseNumber (c :: cs1) with _ | ⟨lex, rs⟩ <;> rw [hn] at h <;>
                    simp at h

-- the brace-matching loop on a whole object plus trailing text
theorem findClose_obj (w mid suf : List Char) (hw : NeutralV w) (hm : NeutralV mid) :
    findClose 0 false false ((lbrace :: (w ++ (mid ++ [rbrace]))) ++ suf) =
      some (lbrace :: (w ++ (mid ++ [rbrace]))).length := by
  have hstep : scanStep ((0 : Int), false, false) lbrace = some (1, false, false) := by
    rw [scanStep_lbrace 0]
    norm_num
  rw [List.cons_append, findClose_cons_of_step 0 false false lbrace (1, false, false) hstep]
  rw [List.append_assoc w (mid ++ [rbrace]) suf]
  rw [findClose_of_scan w 1 false false (1, false, false) (hw 1 (le_refl 1))]
  rw [List.append_assoc mid [rbrace] suf, List.singleton_append]
  rw [findClose_of_scan mid 1 false false (1, false, false) (hm 1 (le_refl 1))]
  rw [findClose_rbrace_one suf]
  simp only [Option.map_some', Option.some.injEq, List.length_cons, List.length_append,
    List.length_nil]
  omega

-- str.strip leaves a span with non-space ends unchanged
theorem pyStrip_noop (c : Char) (l : List Char) (d : Char)
    (hc : isPyWs c = false) (hd : isPyWs d = false) :
    pyStrip ((c :: l) ++ [d]) = (c :: l) ++ [d] := by
  unfold pyStrip
  have h1 : ((c :: l) ++ [d]).dropWhile isPyWs = (c :: l) ++ [d] := by
    rw [List.cons_append, List.dropWhile_cons, hc]
    simp
  rw [h1]
  have h2 : ((c :: l) ++ [d]).reverse = d :: (l.reverse ++ [c]) := by simp
  rw [h2, List.dropWhile_cons, hd]
  simp only [Bool.false_eq_true, if_false]
  rw [← h2, List.reverse_reverse]

-- the span handed to json.loads for a well-formed object is the object itself
theorem adjustSpan_obj (w mid suf : List Char) (hw : NeutralV w) (hm : NeutralV mid) :
    adjustSpan ((lbrace :: (w ++ (mid ++ [rbrace]))) ++ suf) =
      lbrace :: (w ++ (mid ++ [rbrace])) := by
  unfold adjustSpan
  rw [findClose_obj w mid suf hw hm]
  simp only []
  rw [List.take_left (lbrace :: (w ++ (mid ++ [rbrace]))) suf]
  have hobj2 : lbrace :: (w ++ (mid ++ [rbrace])) = (lbrace :: (w ++ mid)) ++ [rbrace] := by
    simp
  rw [hobj2]
  rw [pyStrip_noop lbrace (w ++ mid) rbrace (by decide) (by decide)]
  rw [List.getLast?_concat (lbrace :: (w ++ mid))]
  rw [if_pos rfl]

-- findIdx? over a prefix with no match
theorem findIdx_skip (p : Char → Bool) :
    ∀ (pre cs : List Char) (i : Nat), (∀ c ∈ pre, p c = false) →
    List.findIdx? p (pre ++ cs) i = List.findIdx? p cs (i + pre.length) := by
  intro pre
  induction pre with
  | nil =>
    intro cs i h
    simp
  | cons a t ih =>
    intro cs i h
    rw [List.cons_append, List.findIdx?_cons]
    rw [h a (by simp)]
    simp only [Bool.false_eq_true, if_false]
    rw [ih cs (i + 1) (fun c hc => h c (by simp [hc]))]
    congr 1
    simp only [List.length_cons]
    omega

theorem sentinel_no_lbrace : ∀ c ∈ sentinelL, (decide (c = lbrace)) = false := by
  decide

theorem ws_no_lbrace (c : Char) (h : isWsChar c = true) : (decide (c = lbrace)) = false := by
  unfold isWsChar at h
  rcases Bool.or_eq_true_iff.mp h with h1 | h1
  · rcases Bool.or_eq_true_iff.mp h1 with h2 | h2
    · rcases Bool.or_eq_true_iff.mp h2 with h3 | h3
      · rw [of_decide_eq_true h3]
        decide
      · rw [of_decide_eq_true h3]
        decide
    · rw [of_decide_eq_true h2]
      decide
  · rw [of_decide_eq_true h1]
    decide

-- the first opening brace after the sentinel opens the object
theorem findCharFrom_sentinel (pre ws body suf : List Char)
    (hws : ∀ c ∈ ws, isWsChar c = true) :
    findCharFrom (pre ++ (sentinelL ++ (ws ++ ((lbrace :: body) ++ suf)))) lbrace pre.length =
      some (pre.length + (sentinelL.length + ws.length)) := by
  unfold findCharFrom
  rw [List.drop_left pre (sentinelL ++ (ws ++ ((lbrace :: body) ++ suf)))]
  rw [findIdx_skip _ sentinelL _ 0 sentinel_no_lbrace]
  rw [findIdx_skip _ ws _ (0 + sentinelL.length) (fun c hc => ws_no_lbrace c (hws c hc))]
  rw [List.cons_append, List.findIdx?_cons]
  rw [if_pos (by simp)]
  simp only [Option.map_some', Option.some.injEq]
  omega

-- dict lemmas for the extractor conclusions
theorem hasKey_of_pyGet (d : PyDict) (k : String) (v : Json) (h : pyGet d k = some v) :
    hasKey d k = true := by
  unfold pyGet at h
  rcases hf : d.find? (fun p => p.1 = k) with _ | x
  · rw [hf] at h
    simp at h
  · unfold hasKey
    have hmem := List.mem_of_find?_eq_some hf
    have hpx := List.find?_some hf
    exact List.any_eq_true.mpr ⟨x, hmem, hpx⟩

theorem pyGet_append_left (d e : PyDict) (k : String) (v : Json)
    (h : pyGet d k = some v) : pyGet (d ++ e) k = some v := by
  unfold pyGet at h ⊢
  rw [List.find?_append]
  rcases hf : d.find? (fun p => p.1 = k) with _ | x
  · rw [hf] at h
    simp at h
  · rw [hf] at h ⊢
    have hor : (some x).or (e.find? (fun p => (p.1 = k : Bool))) = some x := rfl
    rw [hor]
    exact h

theorem pyGet_ensureArgs (d : PyDict) (k : String) (v : Json) (h : pyGet d k = some v) :
    pyGet (ensureArgs d) k = some v := by
  unfold ensureArgs
  by_cases ha : hasKey d argumentsKey = true
  · rw [if_pos ha]
    exact h
  · rw [if_neg ha]
    exact pyGet_append_left d _ k v h

theorem pyGet_ensureArgs_default (d : PyDict) (h : hasKey d argumentsKey = false) :
    pyGet (ensureArgs d) argumentsKey = some (Json.jobj []) := by
  unfold ensureArgs
  rw [h]
  simp only [Bool.false_eq_true, if_false]
  unfold pyGet
  rw [List.find?_append]
  have hnone : d.find? (fun p => (p.1 = argumentsKey : Bool)) = none := by
    rw [List.find?_eq_none]
    intro x hx hp
    unfold hasKey at h
    have hx2 : d.any (fun p => (p.1 = argumentsKey : Bool)) = true :=
      List.any_eq_true.mpr ⟨x, hx, hp⟩
    rw [hx2] at h
    exact Bool.noConfusion h
  rw [hnone]
  rw [List.find?_cons_of_pos _ (by simp)]
  simp

/-- C1: the Call Extractor (parse_tool_call) returns none on every input that
does not contain the sentinel TOOL_CALL:; and on every input consisting of a
prefix, the first occurrence of the sentinel, whitespace, a syntactically
valid JSON object carrying a name key, and a suffix, it returns that object
as the tool-call dict after the missing-arguments default: the name field is
preserved, and when the object has no arguments key the resulting arguments
are the empty object. -/
theorem claim_C1_extractor :
    (∀ cs, containsList cs sentinelL = false → parse_tool_call cs = none) ∧
    (∀ pre ws obj suf kvs v,
      firstIdx (pre ++ (sentinelL ++ (ws ++ (obj ++ suf)))) sentinelL = some pre.length →
      (∀ c ∈ ws, isWsChar c = true) →
      parseP (obj.length + 1) PMode.value obj = some (PRes.val (Json.jobj kvs), []) →
      pyGet kvs nameKey = some v →
      parse_tool_call (pre ++ (sentinelL ++ (ws ++ (obj ++ suf)))) = some (ensureArgs kvs) ∧
      pyGet (ensureArgs kvs) nameKey = some v ∧
      (hasKey kvs argumentsKey = false →
        pyGet (ensureArgs kvs) argumentsKey = some (Json.jobj []))) := by
  constructor
  · intro cs h
    unfold parse_tool_call
    rw [if_neg (by simp [h])]
  · intro pre ws obj suf kvs v hfi hws hparse hname
    obtain ⟨w, mid, hobj, hw, hm⟩ := parseP_obj_shape _ obj kvs [] hparse
    rw [List.append_nil] at hobj
    subst hobj
    have hfc := findCharFrom_sentinel pre ws (w ++ (mid ++ [rbrace])) suf hws
    have hdrop : (pre ++ (sentinelL ++ (ws ++
        ((lbrace :: (w ++ (mid ++ [rbrace]))) ++ suf)))).drop
        (pre.length + (sentinelL.length + ws.length)) =
        (lbrace :: (w ++ (mid ++ [rbrace]))) ++ suf := by
      have hre : pre ++ (sentinelL ++ (ws ++ ((lbrace :: (w ++ (mid ++ [rbrace]))) ++ suf))) =
          (pre ++ (sentinelL ++ ws)) ++ ((lbrace :: (w ++ (mid ++ [rbrace]))) ++ suf) := by
        simp [List.append_assoc]
      rw [hre]
      exact List.drop_left' (by simp [List.length_append])
    have hpc : primaryCandidate (pre ++ (sentinelL ++ (ws ++
        ((lbrace :: (w ++ (mid ++ [rbrace]))) ++ suf)))) =
        some (lbrace :: (w ++ (mid ++ [rbrace]))) := by
      unfold primaryCandidate
      rw [hfi]
      try dsimp only
      rw [hfc]
      try dsimp only
      rw [hdrop]
      rw [adjustSpan_obj w mid suf hw hm]
    have hloads : json_loadsL (lbrace :: (w ++ (mid ++ [rbrace]))) = some (Json.jobj kvs) := by
      unfold json_loadsL
      have hlb : isWsChar lbrace = false := by decide
      have hdw : (lbrace :: (w ++ (mid ++ [rbrace]))).dropWhile isWsChar =
          lbrace :: (w ++ (mid ++ [rbrace])) := by
        rw [List.dropWhile_cons, hlb]
        simp
      rw [hdw, hparse]
      simp
    have hhk : hasKey kvs nameKey = true := hasKey_of_pyGet kvs nameKey v hname
    have hck : containsList (pre ++ (sentinelL ++ (ws ++
        ((lbrace :: (w ++ (mid ++ [rbrace]))) ++ suf)))) sentinelL = true := by
      unfold containsList
      rw [hfi]
      rfl
    refine ⟨?_, pyGet_ensureArgs kvs nameKey v hname,
      fun hno => pyGet_ensureArgs_default kvs hno⟩
    unfold parse_tool_call
    rw [if_pos hck]
    rw [hpc]
    try dsimp only
    rw [hloads]
    try dsimp only
    rw [if_pos hhk]

set_option maxRecDepth 16384 in
/-- Closed instance of claim C1 at the concrete witness input. -/
theorem claim_C1_witness :
    parse_tool_call (w1pre.toList ++ (sentinelL ++ (w1ws.toList ++
        (w1obj.toList ++ w1suf.toList)))) = some (ensureArgs w1kvs) ∧
      pyGet (ensureArgs w1kvs) nameKey = some (Json.jstr "get_iucr_info") ∧
      (hasKey w1kvs argumentsKey = false →
        pyGet (ensureArgs w1kvs) argumentsKey = some (Json.jobj [])) :=
  claim_C1_extractor.2 w1pre.toList w1ws.toList w1obj.toList w1suf.toList w1kvs
    (Json.jstr "get_iucr_info") (by rfl) (by decide) (by rfl) (by rfl)

end ToolProto
